import Mathlib

/-!
# Block and Section of the minecraft package

A shallow embedding of `block.go` (the `Block` value type: equality, opacity,
metadata and tick bookkeeping) and of the `Section` container that packs 4096
voxels into byte and nibble arrays.

Conventions of the embedding:

* `uint16` / `uint8` fields are `Nat`; the `int32` fields of `Tick` are `Int`.
  No arithmetic is done on them in `block.go`, only comparisons.
* A Go slice is `Option (List α)`: `none` is the `nil` slice, `some l` a
  non-nil slice with elements `l`. `len` of both `nil` and `some []` is 0.
* `nbt.Tag` belongs to an external package; its four observers used by
  `block.go` are carried by a record `TagOps`.
-/

namespace Minecraft

/-! ## Go slices -/

/-- Length of a Go slice: `len(s)`, which is 0 for the nil slice. -/
def sliceLen {α : Type} : Option (List α) → Nat
  | none => 0
  | some l => l.length

/-- Elements of a Go slice in order, as traversed by `range`; none for nil. -/
def sliceElems {α : Type} : Option (List α) → List α
  | none => []
  | some l => l

/-! ## Tags (interface of the external nbt package) -/

/-- Operations of `nbt.Tag` that `block.go` calls: `Name()`, `TagId()`,
`Copy()` and `Equal(...)`. -/
structure TagOps (Tag : Type) where
  Name : Tag → String
  TagId : Tag → Nat
  Copy : Tag → Tag
  Equal : Tag → Tag → Bool

/-- Constant `nbt.Tag_End`, the type id of the end-marker tag. -/
def Tag_End : Nat := 0

/-! ## block.go -/

/-- Go `type Tick struct { I, T, P int32 }`. -/
structure Tick where
  I : Int
  T : Int
  P : Int
  deriving DecidableEq

/-- Go `type Block struct { BlockId uint16; Data uint8; metadata []nbt.Tag; ticks []Tick }`. -/
structure Block (Tag : Type) where
  BlockId : Nat
  Data : Nat
  metadata : Option (List Tag)
  ticks : Option (List Tick)
  deriving DecidableEq

/-- Argument of `Equal`: a value of the interface `equaler.Equaler`. Its dynamic
type is `*Block` (possibly a nil pointer), `Block`, or anything else. -/
inductive Equaler (Tag : Type) where
  | blockPtr (p : Option (Block Tag))
  | blockVal (c : Block Tag)
  | other

/-- Lines 45-50 of `Equal`: the two type assertions, giving the pointer `c`
(`none` is the nil pointer). -/
def Equaler.asBlock {Tag : Type} : Equaler Tag → Option (Block Tag)
  | .blockPtr p => p
  | .blockVal d => some d
  | .other => none

/-- Inner loop over `c.ticks` (lines 55-60): `found` after the loop. -/
def tickFound (bT : Tick) : List Tick → Bool
  | [] => false
  | cT :: rest =>
    if bT.I == cT.I && bT.T == cT.T && bT.P == cT.P then true
    else tickFound bT rest

/-- Outer loop over `b.ticks` (lines 53-64): `false` when the loop returns
false, `true` when it runs to its end. -/
def ticksLoop (cs : List Tick) : List Tick → Bool
  | [] => true
  | bT :: rest => if !tickFound bT cs then false else ticksLoop cs rest

/-- Inner loop over `c.metadata` for the tag `v` of `b` (lines 66-79): `true`
when a tag of the same name is met and `v.Equal(w)` holds for the first such
tag; `false` when `Equal` returns false there or no tag has the name. -/
def metadataFound {Tag : Type} (ops : TagOps Tag) (v : Tag) : List Tag → Bool
  | [] => false
  | w :: rest =>
    if ops.Name w == ops.Name v then
      (if !ops.Equal v w then false else true)
    else metadataFound ops v rest

/-- Outer loop over `b.metadata` (lines 65-80). -/
def metadataLoop {Tag : Type} (ops : TagOps Tag) (cs : List Tag) : List Tag → Bool
  | [] => true
  | v :: rest => if !metadataFound ops v cs then false else metadataLoop ops cs rest

/-- Go `func (b Block) Equal(e equaler.Equaler) bool`. -/
def Block.Equal {Tag : Type} (ops : TagOps Tag) (b : Block Tag) (e : Equaler Tag) : Bool :=
  match e.asBlock with
  | some c =>
    if b.BlockId == c.BlockId && b.Data == c.Data
        && sliceLen b.metadata == sliceLen c.metadata
        && sliceLen b.ticks == sliceLen c.ticks then
      if !ticksLoop (sliceElems c.ticks) (sliceElems b.ticks) then false
      else if !metadataLoop ops (sliceElems c.metadata) (sliceElems b.metadata) then false
      else true
    else false
  | none => false

/-- Loop of `Opacity` over the table `transparentBlocks` (lines 92-97). -/
def opacityScan (id : Nat) : List Nat → Nat
  | [] => 15
  | t :: rest => if t == id then 1 else opacityScan id rest

/-- Go `func (b *Block) Opacity() uint8`; the package-level table
`transparentBlocks` is declared in another file and is a parameter here. -/
def Block.Opacity {Tag : Type} (transparentBlocks : List Nat) (b : Block Tag) : Nat :=
  if b.BlockId == 8 || b.BlockId == 9 then 3
  else opacityScan b.BlockId transparentBlocks

/-- Go `func (b *Block) IsLiquid() bool`. -/
def Block.IsLiquid {Tag : Type} (b : Block Tag) : Bool :=
  b.BlockId == 8 || b.BlockId == 9 || b.BlockId == 10 || b.BlockId == 11

/-- Go `func (b *Block) HasMetadata() bool`. -/
def Block.HasMetadata {Tag : Type} (b : Block Tag) : Bool :=
  decide (sliceLen b.metadata > 0)

/-- Go `func (b *Block) GetMetadata() []nbt.Tag`. -/
def Block.GetMetadata {Tag : Type} (ops : TagOps Tag) (b : Block Tag) : Option (List Tag) :=
  match b.metadata with
  | none => none
  | some l => some (l.map ops.Copy)

/-- Loop of `SetMetadata` (lines 130-138) from position `i` on: the tags
appended to the local slice `metadata`, in order. A tag named x, y or z is
skipped (`continue`) before its type is looked at; otherwise an end tag stops
the loop (`break`). -/
def setMetadataLoop {Tag : Type} (ops : TagOps Tag) : List Tag → List Tag
  | [] => []
  | t :: rest =>
    if ops.Name t == "x" || ops.Name t == "y" || ops.Name t == "z" then
      setMetadataLoop ops rest
    else if ops.TagId t == Tag_End then []
    else ops.Copy t :: setMetadataLoop ops rest

/-- Go `func (b *Block) SetMetadata(data []nbt.Tag)`. Only `len(data)` and its
elements are read, so `data` is given by its elements. -/
def Block.SetMetadata {Tag : Type} (ops : TagOps Tag) (b : Block Tag) (data : List Tag) :
    Block Tag :=
  let metadata := setMetadataLoop ops data
  if metadata.length > 0 then { b with metadata := some metadata }
  else { b with metadata := none }

/-- Go `func (b *Block) HasTicks() bool`. -/
def Block.HasTicks {Tag : Type} (b : Block Tag) : Bool :=
  decide (sliceLen b.ticks > 0)

/-- Go `func (b *Block) GetTicks() []Tick`: always a fresh non-nil slice. -/
def Block.GetTicks {Tag : Type} (b : Block Tag) : Option (List Tick) :=
  some (sliceElems b.ticks)

/-- Go `func (b *Block) AddTicks(t ...Tick)`: `append(b.ticks, t...)`, which
keeps a nil slice nil when nothing is appended. -/
def Block.AddTicks {Tag : Type} (b : Block Tag) (t : List Tick) : Block Tag :=
  match b.ticks, t with
  | none, [] => { b with ticks := none }
  | s, t => { b with ticks := some (sliceElems s ++ t) }

/-- Go `func (b *Block) SetTicks(t []Tick)`. -/
def Block.SetTicks {Tag : Type} (b : Block Tag) (t : List Tick) : Block Tag :=
  { b with ticks := some t }

/-! ## A concrete tag type for evaluation -/

/-- A tag given by its name, type id and an integer payload. -/
structure SimpleTag where
  name : String
  tagId : Nat
  value : Int
  deriving DecidableEq

/-- Tag operations on `SimpleTag`: copying is the identity on values and
`Equal` is structural equality. -/
def simpleOps : TagOps SimpleTag where
  Name := fun t => t.name
  TagId := fun t => t.tagId
  Copy := fun t => t
  Equal := fun v w => decide (v = w)

/-! ## section_test.go: byte reinterpretation helpers -/

/-- Go `func b2i(b byte) int8`: the unsigned byte `b` read as a signed byte. -/
def b2i (b : Nat) : Int :=
  if b % 256 < 128 then ((b % 256 : Nat) : Int) else ((b % 256 : Nat) : Int) - 256

/-- Go `func i2b(b int8) byte`: the signed byte `b` read as unsigned. -/
def i2b (b : Int) : Nat := (b % 256).toNat

/-! ## Section

`section.go` is not among the sources; only its test is. The container is
modelled from the specification (sections 3 and 4.2). Arrays are lists of
signed bytes. An access outside an array has no defined result and is `none`.
-/

/-- Modelled from the spec: the Section data model of section 3, missing with
`section.go`. Four packed arrays, the slab index `y` with its stored tag
`tagY`, and the sparse per-voxel metadata and tick tables keyed by flattened
index (`none` is "no entry"). -/
structure Section (Tag : Type) where
  y : Int
  tagY : Int
  blocks : List Int
  add : List Int
  data : List Int
  blockLight : List Int
  skyLight : List Int
  metadata : Int → Option (List Tag)
  ticks : Int → Option (List Tick)

/-- Modelled from the spec: the flattened voxel index of `section.go`,
`index = y₀·256 + z·16 + x`. -/
def voxelIndex (x y z : Int) : Int := y * 256 + z * 16 + x

/-- Modelled from the spec: reading element `i` of a byte array of
`section.go`; there is no bounds check in the reference, so outside the array
the read has no result. -/
def readByte (arr : List Int) (i : Int) : Option Int :=
  if 0 ≤ i then arr[i.toNat]? else none

/-- Modelled from the spec: writing element `i` of a byte array of
`section.go`; no result outside the array. -/
def writeByte (arr : List Int) (i : Int) (v : Int) : Option (List Int) :=
  if 0 ≤ i ∧ i.toNat < arr.length then some (arr.set i.toNat v) else none

/-- Modelled from the spec: nibble read of `section.go`. Byte position is
`index / 2`; an even index takes the low nibble, an odd index the high one. -/
def getNibble (arr : List Int) (index : Int) : Option Nat :=
  match readByte arr (index / 2) with
  | none => none
  | some v =>
    if index % 2 = 0 then some (i2b v &&& 0xF)
    else some ((i2b v >>> 4) &&& 0xF)

/-- Modelled from the spec: nibble write of `section.go`, a read-modify-write
that keeps the other nibble of the byte. -/
def setNibble (arr : List Int) (index : Int) (v : Nat) : Option (List Int) :=
  match readByte arr (index / 2) with
  | none => none
  | some old =>
    if index % 2 = 0 then
      writeByte arr (index / 2) (b2i ((i2b old &&& 0xF0) ||| (v &&& 0xF)))
    else
      writeByte arr (index / 2) (b2i ((i2b old &&& 0x0F) ||| ((v &&& 0xF) <<< 4)))

/-- Modelled from the spec: encoding of the low 8 bits of an extended id,
`blocksByte = id & 0xFF` (section 4.2 of the spec; `section.go` is missing). -/
def encodeBlocksByte (id : Nat) : Nat := id &&& 0xFF

/-- Modelled from the spec: encoding of the extension nibble,
`addNibble = (id >> 8) & 0xF` (section 4.2; `section.go` is missing). -/
def encodeAddNibble (id : Nat) : Nat := (id >>> 8) &&& 0xF

/-- Modelled from the spec: decoding of an extended id,
`id = (addNibble << 8) | (blocksByte & 0xFF)` (section 4.2; `section.go` is
missing). -/
def decodeId (addNibble blocksByte : Nat) : Nat := (addNibble <<< 8) ||| (blocksByte &&& 0xFF)

/-- Modelled from the spec: `GetBlock(x, y, z)` of the missing `section.go`.
Computes the index, reads `blocks[index]` as unsigned, the `add` nibble and the
`data` nibble, and looks up the metadata and ticks of the index. -/
def Section.GetBlock {Tag : Type} (s : Section Tag) (x y z : Int) : Option (Block Tag) :=
  let index := voxelIndex x y z
  match readByte s.blocks index, getNibble s.add index, getNibble s.data index with
  | some blocksByte, some addNibble, some dataNibble =>
    some { BlockId := decodeId addNibble (i2b blocksByte)
           Data := dataNibble
           metadata := s.metadata index
           ticks := s.ticks index }
  | _, _, _ => none

/-- Modelled from the spec: `SetBlock(x, y, z, block)` of the missing
`section.go`. Writes `id & 0xFF` into `blocks`, `(id >> 8) & 0xF` into the
`add` nibble, `data & 0xF` into the `data` nibble, and replaces the metadata
and tick entries of the index; a block without metadata (ticks) removes the
entry. -/
def Section.SetBlock {Tag : Type} (s : Section Tag) (x y z : Int) (block : Block Tag) :
    Option (Section Tag) :=
  let index := voxelIndex x y z
  match writeByte s.blocks index (b2i (encodeBlocksByte block.BlockId)),
        setNibble s.add index (encodeAddNibble block.BlockId),
        setNibble s.data index (block.Data &&& 0xF) with
  | some blocks, some add, some data =>
    some { s with
           blocks := blocks
           add := add
           data := data
           metadata := fun j =>
             if j = index then (if block.HasMetadata then block.metadata else none)
             else s.metadata j
           ticks := fun j =>
             if j = index then (if block.HasTicks then block.ticks else none)
             else s.ticks j }
  | _, _, _ => none

/-- Modelled from the spec: the slab index stored by `SetY` and `newSection`
of the missing `section.go`: `floor(worldY/16)` truncated to the 0-15
encoding (its low four bits). -/
def slabY (worldY : Int) : Int := (Int.fdiv worldY 16) % 16

/-- Modelled from the spec: `SetY(worldY)` of the missing `section.go`; it
overwrites the stored tag too. -/
def Section.SetY {Tag : Type} (s : Section Tag) (worldY : Int) : Section Tag :=
  { s with y := slabY worldY, tagY := slabY worldY }

/-- Modelled from the spec: `newSection(worldY)` of the missing `section.go`:
zeroed arrays of the required sizes, no metadata or tick entries, and `y` set
by the rule of `SetY`. -/
def newSection (Tag : Type) (worldY : Int) : Section Tag :=
  Section.SetY
    { y := 0
      tagY := 0
      blocks := List.replicate 4096 0
      add := List.replicate 2048 0
      data := List.replicate 2048 0
      blockLight := List.replicate 2048 0
      skyLight := List.replicate 2048 0
      metadata := fun _ => none
      ticks := fun _ => none }
    worldY

/-- Payload of a tag of the compound given to `loadSection`, as far as
`loadSection` tells payloads apart: a byte, a byte array, or another type. -/
inductive NbtData where
  | byte (v : Int)
  | byteArray (a : List Int)
  | other (typeId : Nat)
  deriving DecidableEq

/-- A named tag of a compound. -/
structure NamedTag where
  name : String
  data : NbtData
  deriving DecidableEq

/-- Lookup of a tag by name in a compound (`Get` of the tag library). -/
def compoundGet (c : List NamedTag) (name : String) : Option NbtData :=
  match c.find? (fun t => t.name == name) with
  | none => none
  | some t => some t.data

/-- Modelled from the spec: validation of one array tag by `loadSection` of the
missing `section.go`: present, a byte array, of the required size; otherwise a
decoding error naming the tag. -/
def loadByteArray (c : List NamedTag) (name : String) (size : Nat) : Except String (List Int) :=
  match compoundGet c name with
  | some (.byteArray a) => if a.length = size then .ok a else .error name
  | _ => .error name

/-- Modelled from the spec: `loadSection(tagCompound)` of the missing
`section.go`. Validates `Blocks` (4096), `Add`, `Data`, `BlockLight`,
`SkyLight` (2048 each) and `Y` (a byte), copies the arrays and reads `y`
verbatim. -/
def loadSection (Tag : Type) (c : List NamedTag) : Except String (Section Tag) :=
  match loadByteArray c "Blocks" 4096 with
  | .error e => .error e
  | .ok blocks =>
  match loadByteArray c "Add" 2048 with
  | .error e => .error e
  | .ok add =>
  match loadByteArray c "Data" 2048 with
  | .error e => .error e
  | .ok data =>
  match loadByteArray c "BlockLight" 2048 with
  | .error e => .error e
  | .ok blockLight =>
  match loadByteArray c "SkyLight" 2048 with
  | .error e => .error e
  | .ok skyLight =>
  match compoundGet c "Y" with
  | some (.byte yv) =>
    .ok { y := yv
          tagY := yv
          blocks := blocks
          add := add
          data := data
          blockLight := blockLight
          skyLight := skyLight
          metadata := fun _ => none
          ticks := fun _ => none }
  | _ => .error "Y"

/-- The nibble of a packed array at a voxel index in the words of the
specification, by division: the low 4 bits of byte `index / 2` when the index
is even and the high 4 bits when it is odd (0 outside the array). -/
def specNibble (arr : List Int) (index : Nat) : Nat :=
  if index % 2 = 0 then i2b (arr.getD (index / 2) 0) % 16
  else i2b (arr.getD (index / 2) 0) / 16

/-- Array sizes required of a Section: 4096 block bytes and 2048 bytes in each
nibble array. -/
def Section.WellSized {Tag : Type} (s : Section Tag) : Prop :=
  s.blocks.length = 4096 ∧ s.add.length = 2048 ∧ s.data.length = 2048
    ∧ s.blockLight.length = 2048 ∧ s.skyLight.length = 2048

/-- Section-local coordinates: x, y and z each in [0,15]. -/
def VoxelInRange (x y z : Int) : Prop :=
  (0 ≤ x ∧ x ≤ 15) ∧ (0 ≤ y ∧ y ≤ 15) ∧ (0 ≤ z ∧ z ≤ 15)

/-- One earlier `SetBlock` call: coordinates and the block written. -/
structure SetOp (Tag : Type) where
  x : Int
  y : Int
  z : Int
  block : Block Tag

/-- A run of `SetBlock` calls from a section, in order; `none` as soon as one
call has no result. -/
def runSetBlocks {Tag : Type} : Section Tag → List (SetOp Tag) → Option (Section Tag)
  | s, [] => some s
  | s, op :: rest =>
    match s.SetBlock op.x op.y op.z op.block with
    | none => none
    | some t => runSetBlocks t rest

/-! ## SetMetadata: what is retained, in words -/

/-- A tag is positional when it is named x, y or z. -/
def isCoordTag {Tag : Type} (ops : TagOps Tag) (t : Tag) : Bool :=
  ops.Name t == "x" || ops.Name t == "y" || ops.Name t == "z"

/-- A tag is an end-marker when its type id is `Tag_End`. -/
def isEndTag {Tag : Type} (ops : TagOps Tag) (t : Tag) : Bool :=
  ops.TagId t == Tag_End

/-- Reading "the tags of data that come before the first end-marker tag and
are not named x, y or z", copied. -/
def beforeFirstEnd {Tag : Type} (ops : TagOps Tag) (data : List Tag) : List Tag :=
  ((data.takeWhile (fun t => !isEndTag ops t)).filter (fun t => !isCoordTag ops t)).map ops.Copy

/-- Reading "the tags of data that come before the first end-marker tag that
is not itself named x, y or z, and are not named x, y or z", copied. -/
def beforeFirstPlainEnd {Tag : Type} (ops : TagOps Tag) (data : List Tag) : List Tag :=
  ((data.takeWhile (fun t => isCoordTag ops t || !isEndTag ops t)).filter
    (fun t => !isCoordTag ops t)).map ops.Copy

/-- Reading "every tag before the first end-marker is named x, y or z" (which
holds of the empty list). -/
def allCoordBeforeFirstEnd {Tag : Type} (ops : TagOps Tag) (data : List Tag) : Prop :=
  ∀ t ∈ data.takeWhile (fun t => !isEndTag ops t), isCoordTag ops t = true

/-- Reading "every tag before the first end-marker not itself named x, y or z
is named x, y or z" (which holds of the empty list). -/
def allCoordBeforeFirstPlainEnd {Tag : Type} (ops : TagOps Tag) (data : List Tag) : Prop :=
  ∀ t ∈ data.takeWhile (fun t => isCoordTag ops t || !isEndTag ops t), isCoordTag ops t = true

/-- An end-marker tag that bears the name x. -/
def endNamedX : SimpleTag := ⟨"x", 0, 0⟩

/-- An end-marker tag that bears the name y. -/
def endNamedY : SimpleTag := ⟨"y", 0, 0⟩

/-- An ordinary tag named "id". -/
def tagId5 : SimpleTag := ⟨"id", 3, 5⟩

/-- The default Block: id 0, data 0, no metadata, no ticks. -/
def emptyBlock (Tag : Type) : Block Tag :=
  { BlockId := 0, Data := 0, metadata := none, ticks := none }

/-- Input of the metadata filtering scenario: tags named x, y, z, an ordinary
tag, a nameless end-marker and a tag after it. -/
def filterInput : List SimpleTag :=
  [⟨"x", 3, 10⟩, ⟨"id", 8, 1⟩, ⟨"y", 3, 64⟩, ⟨"z", 3, -3⟩, ⟨"Lock", 8, 2⟩, ⟨"", 0, 0⟩,
    ⟨"after", 3, 9⟩]

/-! ## Example blocks -/

/-- A block whose two metadata tags share the name "a". -/
def dupBlock : Block SimpleTag :=
  { BlockId := 1, Data := 0
    metadata := some [⟨"a", 1, 1⟩, ⟨"a", 1, 2⟩]
    ticks := none }

/-- The block `dupBlock` with its two metadata tags in the other order. -/
def dupBlockSwapped : Block SimpleTag :=
  { BlockId := 1, Data := 0
    metadata := some [⟨"a", 1, 2⟩, ⟨"a", 1, 1⟩]
    ticks := none }

/-- A block with two differently named tags and two ticks. -/
def sampleBlock : Block SimpleTag :=
  { BlockId := 54, Data := 3
    metadata := some [⟨"Items", 9, 7⟩, ⟨"Lock", 8, 0⟩]
    ticks := some [⟨1, 2, 3⟩, ⟨4, 5, 6⟩] }

/-- The block `sampleBlock` with tags and ticks in the other order. -/
def sampleBlockSwapped : Block SimpleTag :=
  { BlockId := 54, Data := 3
    metadata := some [⟨"Lock", 8, 0⟩, ⟨"Items", 9, 7⟩]
    ticks := some [⟨4, 5, 6⟩, ⟨1, 2, 3⟩] }

/-! ## Fixtures of section_test.go -/

/-- Array `blocks` of `TestGetBlock`. -/
def testBlocks : List Int :=
  ((((((List.replicate 4096 0).set 0 1).set 10 2).set 18 24).set 19 13).set 3475 45).set 4054
    (b2i 194)

/-- Array `add` of `TestGetBlock`. -/
def testAdd : List Int :=
  ((List.replicate 2048 0).set 9 (b2i ((12 <<< 4) ||| 7))).set 2027 5

/-- Array `data` of `TestGetBlock`. -/
def testData : List Int :=
  ((List.replicate 2048 0).set 1737 (b2i (9 <<< 4))).set 2027 8

/-- Compound given to `loadSection` in `TestGetBlock`. -/
def testCompound : List NamedTag :=
  [⟨"Blocks", .byteArray testBlocks⟩, ⟨"Add", .byteArray testAdd⟩,
    ⟨"Data", .byteArray testData⟩, ⟨"BlockLight", .byteArray (List.replicate 2048 0)⟩,
    ⟨"SkyLight", .byteArray (List.replicate 2048 0)⟩, ⟨"Y", .byte 0⟩]

/-! ## String and sequences of mutators -/

/-- Verb `%d` of `fmt.Sprintf` on an unsigned or non-negative integer: its
decimal digits. -/
def sprintfNat (n : Nat) : String := Nat.repr n

/-- Verb `%d` of `fmt.Sprintf` on an `int32`: decimal digits, with a leading
minus sign when negative. -/
def sprintfInt (v : Int) : String := Int.repr v

/-- Line 166: `fmt.Sprintf("Block ID: %d\nData: %d\n", b.BlockId, b.Data)`. -/
def stringHeader (id data : Nat) : String :=
  "Block ID: " ++ sprintfNat id ++ "\nData: " ++ sprintfNat data ++ "\n"

/-- Line 174: `fmt.Sprintf("\tTick: %d, i: %d, t: %d, p: %d\n", j, tick.I,
tick.T, tick.P)`. -/
def tickLine (j : Nat) (tick : Tick) : String :=
  "\tTick: " ++ sprintfNat j ++ ", i: " ++ sprintfInt tick.I ++ ", t: " ++ sprintfInt tick.T
    ++ ", p: " ++ sprintfInt tick.P ++ "\n"

/-- Loop of `String` over `b.metadata` (lines 169-171); `tagString` is the
`String()` method of the tags. -/
def stringMetadataLoop {Tag : Type} (tagString : Tag → String) (toRet : String) :
    List Tag → String
  | [] => toRet
  | t :: rest => stringMetadataLoop tagString (toRet ++ ("\t" ++ tagString t ++ "\n")) rest

/-- Loop of `String` over `b.ticks` (lines 173-175), entered with the range
index `n`; the line is numbered `n+1`. -/
def stringTicksLoop (toRet : String) (n : Nat) : List Tick → String
  | [] => toRet
  | tick :: rest => stringTicksLoop (toRet ++ tickLine (n + 1) tick) (n + 1) rest

/-- Go `func (b *Block) String() string`. It is named `StringOf` here because
`String` is the type of strings. -/
def Block.StringOf {Tag : Type} (tagString : Tag → String) (b : Block Tag) : String :=
  let toRet := stringHeader b.BlockId b.Data
  let toRet :=
    if b.metadata.isSome && sliceLen b.metadata != 0 then
      stringMetadataLoop tagString (toRet ++ "Metadata:\n") (sliceElems b.metadata)
    else toRet
  stringTicksLoop toRet 0 (sliceElems b.ticks)

/-- The tick lines in the words of the claim: one line per tick, in order,
the first numbered `first`, the next `first + 1`, and so on. -/
def tickLinesFrom (first : Nat) : List Tick → String
  | [] => ""
  | tick :: rest => tickLine first tick ++ tickLinesFrom (first + 1) rest

/-- Decimal digits of a number, most significant first, from its base-10
digits; the number 0 is the single digit 0. -/
def decimalDigits (n : Nat) : List Char :=
  if n = 0 then ['0'] else ((Nat.digits 10 n).reverse).map Nat.digitChar

/-- The call `b.SetMetadata(b.GetMetadata())`. -/
def Block.resetMetadata {Tag : Type} (ops : TagOps Tag) (b : Block Tag) : Block Tag :=
  b.SetMetadata ops (sliceElems (b.GetMetadata ops))

/-- A number written in decimal. -/
def decimalString (n : Nat) : String := String.mk (decimalDigits n)

/-- A signed number written in decimal, with a minus sign when negative. -/
def signedDecimalString (v : Int) : String :=
  if v < 0 then "-" ++ decimalString v.natAbs else decimalString v.natAbs

/-- The tick lines in the words of the claim, with the numbers written in
decimal: for each tick in order a line
"\tTick: j, i: I, t: T, p: P\n", j counting from `first`. -/
def specTickLines (first : Nat) : List Tick → String
  | [] => ""
  | k :: rest =>
    ("\tTick: " ++ decimalString first ++ ", i: " ++ signedDecimalString k.I ++ ", t: "
      ++ signedDecimalString k.T ++ ", p: " ++ signedDecimalString k.P ++ "\n")
      ++ specTickLines (first + 1) rest

/-- A block without metadata that holds two ticks, one with a negative
field. -/
def tickedBlock : Block SimpleTag :=
  { BlockId := 54, Data := 3, metadata := none, ticks := some [⟨1, 2, 3⟩, ⟨-4, 5, 6⟩] }

/-- One call of a Block mutator: `SetMetadata`, `AddTicks` or `SetTicks`. -/
inductive Mutator (Tag : Type) where
  | setMetadata (data : List Tag)
  | addTicks (t : List Tick)
  | setTicks (t : List Tick)

/-- The Block after one mutator call. -/
def Mutator.apply {Tag : Type} (ops : TagOps Tag) (b : Block Tag) : Mutator Tag → Block Tag
  | .setMetadata data => b.SetMetadata ops data
  | .addTicks t => b.AddTicks t
  | .setTicks t => b.SetTicks t

/-- The Block after a sequence of mutator calls, in order. -/
def applyMutators {Tag : Type} (ops : TagOps Tag) : Block Tag → List (Mutator Tag) → Block Tag
  | b, [] => b
  | b, m :: rest => applyMutators ops (m.apply ops b) rest

/-- A block holding the same tick twice. -/
def twiceTickBlock : Block SimpleTag :=
  { BlockId := 1, Data := 0, metadata := none, ticks := some [⟨1, 2, 3⟩, ⟨1, 2, 3⟩] }

/-- A block holding two different ticks, one of them the tick of
`twiceTickBlock`. -/
def twoTicksBlock : Block SimpleTag :=
  { BlockId := 1, Data := 0, metadata := none, ticks := some [⟨1, 2, 3⟩, ⟨4, 5, 6⟩] }

/-- A block holding the same tag named "a" twice. -/
def twiceNameBlock : Block SimpleTag :=
  { BlockId := 1, Data := 0, metadata := some [⟨"a", 1, 1⟩, ⟨"a", 1, 1⟩], ticks := none }

/-- A block holding the tag named "a" of `twiceNameBlock` and a tag named
"b". -/
def twoNamesBlock : Block SimpleTag :=
  { BlockId := 1, Data := 0, metadata := some [⟨"a", 1, 1⟩, ⟨"b", 1, 2⟩], ticks := none }

/-! ## Equal: characterisation -/

theorem tickFound_iff (bT : Tick) (cs : List Tick) :
    tickFound bT cs = true ↔ ∃ cT ∈ cs, bT.I = cT.I ∧ bT.T = cT.T ∧ bT.P = cT.P := by
  induction cs with
  | nil => simp [tickFound]
  | cons cT rest ih =>
    by_cases h : bT.I = cT.I ∧ bT.T = cT.T ∧ bT.P = cT.P
    · simp [tickFound, h]
    · have h2 : ¬ (bT.I = cT.I ∧ bT.T = cT.T ∧ bT.P = cT.P) := h
      simp only [tickFound, List.mem_cons, exists_eq_or_imp, ih]
      simp only [Bool.and_eq_true, beq_iff_eq, and_assoc]
      simp [h2, ih]

theorem ticksLoop_iff (cs bs : List Tick) :
    ticksLoop cs bs = true ↔ ∀ bT ∈ bs, tickFound bT cs = true := by
  induction bs with
  | nil => simp [ticksLoop]
  | cons bT rest ih =>
    by_cases h : tickFound bT cs = true
    · simp [ticksLoop, h, ih]
    · simp [ticksLoop, h]

theorem metadataFound_iff {Tag : Type} (ops : TagOps Tag) (v : Tag) (cs : List Tag) :
    metadataFound ops v cs = true ↔
      ∃ w, cs.find? (fun w => ops.Name w == ops.Name v) = some w ∧ ops.Equal v w = true := by
  induction cs with
  | nil => simp [metadataFound]
  | cons w rest ih =>
    by_cases h : ops.Name w = ops.Name v
    · have hb : (ops.Name w == ops.Name v) = true := by simp [h]
      simp [metadataFound, List.find?_cons, hb]
    · have hb : (ops.Name w == ops.Name v) = false := by simp [h]
      simp only [metadataFound, List.find?_cons, hb]
      simpa using ih

theorem metadataLoop_iff {Tag : Type} (ops : TagOps Tag) (cs bs : List Tag) :
    metadataLoop ops cs bs = true ↔ ∀ v ∈ bs, metadataFound ops v cs = true := by
  induction bs with
  | nil => simp [metadataLoop]
  | cons v rest ih =>
    by_cases h : metadataFound ops v cs = true
    · simp [metadataLoop, h, ih]
    · simp [metadataLoop, h]

/-- Value of `Equal` on a non-nil block, through the two loops. -/
theorem Equal_some {Tag : Type} (ops : TagOps Tag) (b c : Block Tag) (e : Equaler Tag)
    (he : e.asBlock = some c) :
    b.Equal ops e = true ↔
      (b.BlockId = c.BlockId ∧ b.Data = c.Data
        ∧ sliceLen b.metadata = sliceLen c.metadata
        ∧ sliceLen b.ticks = sliceLen c.ticks
        ∧ ticksLoop (sliceElems c.ticks) (sliceElems b.ticks) = true
        ∧ metadataLoop ops (sliceElems c.metadata) (sliceElems b.metadata) = true) := by
  unfold Block.Equal
  rw [he]
  by_cases h1 : b.BlockId = c.BlockId <;> by_cases h2 : b.Data = c.Data
    <;> by_cases h3 : sliceLen b.metadata = sliceLen c.metadata
    <;> by_cases h4 : sliceLen b.ticks = sliceLen c.ticks
    <;> by_cases h5 : ticksLoop (sliceElems c.ticks) (sliceElems b.ticks) = true
    <;> by_cases h6 : metadataLoop ops (sliceElems c.metadata) (sliceElems b.metadata) = true
    <;> simp [h1, h2, h3, h4, h5, h6]

/-! ## Claims about Equal -/

/-- C1: for all Blocks b and c, `b.Equal(c)` (c passed by value or through a
non-nil pointer) is true if and only if b and c have the same id and data,
metadata lists of the same length, tick lists of the same length, every tick
of b equals some tick of c in the fields I, T and P, and for every metadata tag
v of b the first tag of c bearing the name of v exists and compares equal to
v. -/
theorem Equal_iff {Tag : Type} (ops : TagOps Tag) (b c : Block Tag) :
    (b.Equal ops (.blockVal c) = true ↔
      (b.BlockId = c.BlockId ∧ b.Data = c.Data
        ∧ sliceLen b.metadata = sliceLen c.metadata
        ∧ sliceLen b.ticks = sliceLen c.ticks
        ∧ (∀ bT ∈ sliceElems b.ticks, ∃ cT ∈ sliceElems c.ticks,
            bT.I = cT.I ∧ bT.T = cT.T ∧ bT.P = cT.P)
        ∧ (∀ v ∈ sliceElems b.metadata, ∃ w,
            (sliceElems c.metadata).find? (fun w => ops.Name w == ops.Name v) = some w
              ∧ ops.Equal v w = true)))
    ∧ b.Equal ops (.blockPtr (some c)) = b.Equal ops (.blockVal c) := by
  refine ⟨?_, rfl⟩
  rw [Equal_some ops b c (.blockVal c) rfl, ticksLoop_iff, metadataLoop_iff]
  simp only [tickFound_iff, metadataFound_iff]

/-- C2 fails as stated: the two tags of `dupBlock` share a name, the lists of
`dupBlockSwapped` are reorderings of those of `dupBlock`, tag equality is
reflexive, and still `Equal` returns false (the first tag named "a" of the
other block is not the tag looked for). -/
theorem Equal_perm_counterexample :
    (∀ t, simpleOps.Equal t t = true)
      ∧ dupBlock.BlockId = dupBlockSwapped.BlockId
      ∧ dupBlock.Data = dupBlockSwapped.Data
      ∧ List.Perm (sliceElems dupBlock.metadata) (sliceElems dupBlockSwapped.metadata)
      ∧ List.Perm (sliceElems dupBlock.ticks) (sliceElems dupBlockSwapped.ticks)
      ∧ dupBlock.Equal simpleOps (.blockVal dupBlockSwapped) = false := by
  refine ⟨?_, rfl, rfl, ?_, ?_, ?_⟩
  · intro t
    simp [simpleOps]
  · exact List.Perm.swap _ _ _
  · exact List.Perm.refl _
  · decide

/-- C2 (amended): for Blocks b and c with the same id and data, where the
metadata list of c is a permutation of that of b, the tick list of c is a
permutation of that of b, tag equality is reflexive, and the metadata tags of b
have pairwise distinct names, `b.Equal(c)` returns true. -/
theorem Equal_perm {Tag : Type} (ops : TagOps Tag) (b c : Block Tag)
    (hrefl : ∀ t, ops.Equal t t = true)
    (hid : b.BlockId = c.BlockId) (hdata : b.Data = c.Data)
    (hmeta : List.Perm (sliceElems b.metadata) (sliceElems c.metadata))
    (hticks : List.Perm (sliceElems b.ticks) (sliceElems c.ticks))
    (hnames : ((sliceElems b.metadata).map ops.Name).Nodup) :
    b.Equal ops (.blockVal c) = true := by
  have hlen : ∀ {α : Type} (s : Option (List α)), sliceLen s = (sliceElems s).length := by
    intro α s
    cases s <;> rfl
  rw [Equal_some ops b c (.blockVal c) rfl, ticksLoop_iff, metadataLoop_iff]
  refine ⟨hid, hdata, ?_, ?_, ?_, ?_⟩
  · rw [hlen, hlen]
    exact hmeta.length_eq
  · rw [hlen, hlen]
    exact hticks.length_eq
  · intro bT hb
    rw [tickFound_iff]
    exact ⟨bT, hticks.mem_iff.mp hb, rfl, rfl, rfl⟩
  · intro v hv
    rw [metadataFound_iff]
    have hvc : v ∈ sliceElems c.metadata := hmeta.mem_iff.mp hv
    have hsome : ((sliceElems c.metadata).find? (fun w => ops.Name w == ops.Name v)).isSome := by
      rw [List.find?_isSome]
      exact ⟨v, hvc, by simp⟩
    obtain ⟨w, hw⟩ := Option.isSome_iff_exists.mp hsome
    refine ⟨w, hw, ?_⟩
    have hwname : ops.Name w = ops.Name v := by
      have := List.find?_some hw
      simpa using this
    have hwb : w ∈ sliceElems b.metadata := hmeta.mem_iff.mpr (List.mem_of_find?_eq_some hw)
    have hwv : w = v := List.inj_on_of_nodup_map hnames hwb hv hwname
    rw [hwv]
    exact hrefl v

/-- Witness of `Equal_perm` at `sampleBlock` and its reordering. -/
theorem Equal_perm_witness :
    sampleBlock.Equal simpleOps (.blockVal sampleBlockSwapped) = true :=
  Equal_perm simpleOps sampleBlock sampleBlockSwapped
    (by intro t; simp [simpleOps]) rfl rfl
    (List.Perm.swap _ _ _) (List.Perm.swap _ _ _) (by decide)

/-! ## Claims about SetMetadata -/

theorem setMetadataLoop_eq {Tag : Type} (ops : TagOps Tag) (data : List Tag) :
    setMetadataLoop ops data = beforeFirstPlainEnd ops data := by
  induction data with
  | nil => rfl
  | cons t rest ih =>
    unfold beforeFirstPlainEnd at ih ⊢
    by_cases hc : (ops.Name t == "x" || ops.Name t == "y" || ops.Name t == "z") = true
    · have hc2 : isCoordTag ops t = true := hc
      simp [setMetadataLoop, hc, hc2, List.takeWhile_cons, ih]
    · have hc2 : isCoordTag ops t = false := by simpa [isCoordTag] using hc
      by_cases he : ops.TagId t = Tag_End
      · have he2 : isEndTag ops t = true := by simp [isEndTag, he]
        simp [setMetadataLoop, hc, hc2, he, he2, List.takeWhile_cons]
      · have he2 : isEndTag ops t = false := by simp [isEndTag, he]
        simp [setMetadataLoop, hc, hc2, he, he2, List.takeWhile_cons, ih]

theorem SetMetadata_elems {Tag : Type} (ops : TagOps Tag) (b : Block Tag) (data : List Tag) :
    sliceElems (b.SetMetadata ops data).metadata = setMetadataLoop ops data := by
  unfold Block.SetMetadata
  cases h : setMetadataLoop ops data with
  | nil => simp [sliceElems]
  | cons t rest => simp [sliceElems]

/-- C3 fails as stated: in the input `[endNamedX, tagId5]` the first tag is an
end-marker, so nothing should be retained, but `SetMetadata` skips it for its
name x before looking at its type and retains the tag that follows it. -/
theorem SetMetadata_counterexample :
    isEndTag simpleOps endNamedX = true
      ∧ beforeFirstEnd simpleOps [endNamedX, tagId5] = []
      ∧ ((emptyBlock SimpleTag).SetMetadata simpleOps [endNamedX, tagId5]).metadata
          = some [tagId5] := by
  decide

/-- C3 (amended): for every input list of tags, given that copying a tag keeps
its name, after `SetMetadata(data)` the stored metadata contains no tag named
x, y or z; it consists, in their original order, of exactly the copies of the
tags of data that come before the first end-marker tag not itself named x, y or
z and are not named x, y or z. -/
theorem SetMetadata_retains {Tag : Type} (ops : TagOps Tag) (b : Block Tag) (data : List Tag)
    (hcopy : ∀ t, ops.Name (ops.Copy t) = ops.Name t) :
    sliceElems (b.SetMetadata ops data).metadata = beforeFirstPlainEnd ops data
      ∧ ∀ t ∈ sliceElems (b.SetMetadata ops data).metadata,
          ops.Name t ≠ "x" ∧ ops.Name t ≠ "y" ∧ ops.Name t ≠ "z" := by
  rw [SetMetadata_elems, setMetadataLoop_eq]
  refine ⟨rfl, ?_⟩
  intro t ht
  unfold beforeFirstPlainEnd at ht
  rw [List.mem_map] at ht
  obtain ⟨u, hu, rfl⟩ := ht
  have hnc := (List.mem_filter.mp hu).2
  rw [hcopy]
  simpa [isCoordTag, and_assoc] using hnc

/-- Witness of `SetMetadata_retains` on the metadata filtering scenario: of
seven input tags exactly "id" and "Lock" are retained. -/
theorem SetMetadata_retains_witness :
    (∀ t, simpleOps.Name (simpleOps.Copy t) = simpleOps.Name t)
      ∧ sliceElems ((emptyBlock SimpleTag).SetMetadata simpleOps filterInput).metadata
          = [⟨"id", 8, 1⟩, ⟨"Lock", 8, 2⟩] :=
  ⟨fun _ => rfl,
    ((SetMetadata_retains simpleOps (emptyBlock SimpleTag) filterInput (fun _ => rfl)).1).trans
      (by decide)⟩

/-- C9 fails as stated: in `[endNamedY, tagId5]` no tag stands before the first
end-marker, so every tag before it is named x, y or z and nothing should be
retained; but `SetMetadata` skips that end-marker for its name y, stores the
tag after it, and `HasMetadata` returns true. -/
theorem SetMetadata_absent_counterexample :
    allCoordBeforeFirstEnd simpleOps [endNamedY, tagId5]
      ∧ ((emptyBlock SimpleTag).SetMetadata simpleOps [endNamedY, tagId5]).metadata
          = some [tagId5]
      ∧ ((emptyBlock SimpleTag).SetMetadata simpleOps [endNamedY, tagId5]).HasMetadata
          = true := by
  refine ⟨?_, by decide, by decide⟩
  intro t ht
  have hnil : List.takeWhile (fun t => !isEndTag simpleOps t) [endNamedY, tagId5] = [] := by
    decide
  rw [hnil] at ht
  cases ht

/-- C9 (amended): for every input list of tags, after `SetMetadata(data)` the
stored metadata is either absent (nil) or a non-empty list, never a
zero-length list; the field is absent exactly when no tag of data is retained,
that is when every tag before the first end-marker not itself named x, y or z
is named x, y or z (in particular when data is empty); when it is absent
`HasMetadata` returns false and `GetMetadata` returns absent, and otherwise
`HasMetadata` returns true. -/
theorem SetMetadata_absent_or_nonempty {Tag : Type} (ops : TagOps Tag) (b : Block Tag)
    (data : List Tag) :
    ((b.SetMetadata ops data).metadata = none
        ∨ ∃ t rest, (b.SetMetadata ops data).metadata = some (t :: rest))
      ∧ (b.SetMetadata ops data).metadata ≠ some []
      ∧ ((b.SetMetadata ops data).metadata = none ↔ allCoordBeforeFirstPlainEnd ops data)
      ∧ (data = [] → (b.SetMetadata ops data).metadata = none)
      ∧ ((b.SetMetadata ops data).metadata = none →
          (b.SetMetadata ops data).HasMetadata = false
            ∧ (b.SetMetadata ops data).GetMetadata ops = none)
      ∧ ((b.SetMetadata ops data).metadata ≠ none →
          (b.SetMetadata ops data).HasMetadata = true) := by
  have hnil : setMetadataLoop ops data = [] ↔ allCoordBeforeFirstPlainEnd ops data := by
    rw [setMetadataLoop_eq]
    unfold beforeFirstPlainEnd allCoordBeforeFirstPlainEnd
    simp [List.filter_eq_nil_iff]
  rw [← hnil]
  unfold Block.SetMetadata
  cases hl : setMetadataLoop ops data with
  | nil =>
    refine ⟨Or.inl ?_, ?_, ?_, ?_, ?_, ?_⟩ <;>
      simp [Block.HasMetadata, Block.GetMetadata, sliceLen]
  | cons t rest =>
    refine ⟨Or.inr ⟨t, rest, ?_⟩, ?_, ?_, ?_, ?_, ?_⟩
    · simp
    · simp
    · simp
    · intro hd
      rw [hd] at hl
      simp [setMetadataLoop] at hl
    · simp
    · simp [Block.HasMetadata, sliceLen]

/-- Witness of `SetMetadata_absent_or_nonempty`: a list of positional tags
only clears the metadata of a block that had some. -/
theorem SetMetadata_absent_or_nonempty_witness :
    (sampleBlock.SetMetadata simpleOps [⟨"x", 3, 1⟩, ⟨"z", 3, 2⟩]).metadata = none
      ∧ (sampleBlock.SetMetadata simpleOps [⟨"x", 3, 1⟩, ⟨"z", 3, 2⟩]).HasMetadata = false :=
  ⟨(SetMetadata_absent_or_nonempty simpleOps sampleBlock [⟨"x", 3, 1⟩, ⟨"z", 3, 2⟩]).2.2.1.mpr
      (by unfold allCoordBeforeFirstPlainEnd; decide),
    ((SetMetadata_absent_or_nonempty simpleOps sampleBlock [⟨"x", 3, 1⟩, ⟨"z", 3, 2⟩]).2.2.2.2.1
      (by decide)).1⟩

/-! ## Claims about Opacity -/

theorem opacityScan_eq (id : Nat) (table : List Nat) :
    opacityScan id table = if id ∈ table then 1 else 15 := by
  induction table with
  | nil => simp [opacityScan]
  | cons t rest ih =>
    by_cases h : t = id
    · simp [opacityScan, h]
    · have h2 : ¬ id = t := fun e => h e.symm
      simp [opacityScan, h, h2, ih]

/-- C10: for every Block, `Opacity` returns 3 when the id is 8 or 9 (even if
that id is also in the transparent table), otherwise 1 when the id is in the
transparent table, otherwise 15; so the result is one of 1, 3, 15 and lies in
0..15. -/
theorem Opacity_values {Tag : Type} (transparentBlocks : List Nat) (b : Block Tag) :
    b.Opacity transparentBlocks
        = (if b.BlockId = 8 ∨ b.BlockId = 9 then 3
           else if b.BlockId ∈ transparentBlocks then 1 else 15)
      ∧ (b.Opacity transparentBlocks = 1 ∨ b.Opacity transparentBlocks = 3
          ∨ b.Opacity transparentBlocks = 15)
      ∧ 0 ≤ b.Opacity transparentBlocks ∧ b.Opacity transparentBlocks ≤ 15 := by
  have h : b.Opacity transparentBlocks
      = (if b.BlockId = 8 ∨ b.BlockId = 9 then 3
         else if b.BlockId ∈ transparentBlocks then 1 else 15) := by
    unfold Block.Opacity
    rw [opacityScan_eq]
    by_cases h8 : b.BlockId = 8
    · simp [h8]
    · by_cases h9 : b.BlockId = 9
      · simp [h9]
      · simp [h8, h9]
  refine ⟨h, ?_, Nat.zero_le _, ?_⟩
  · rw [h]
    split
    · exact Or.inr (Or.inl rfl)
    · split
      · exact Or.inl rfl
      · exact Or.inr (Or.inr rfl)
  · rw [h]
    split
    · decide
    · split <;> decide

/-! ## Bytes and nibbles -/

theorem i2b_lt (v : Int) : i2b v < 256 := by
  unfold i2b
  omega

theorem i2b_b2i (n : Nat) (h : n < 256) : i2b (b2i n) = n := by
  unfold i2b b2i
  split <;> omega

theorem and15 (v : Nat) : v &&& 0xF = v % 16 := Nat.and_pow_two_sub_one_eq_mod v 4

theorem and255 (v : Nat) : v &&& 0xFF = v % 256 := Nat.and_pow_two_sub_one_eq_mod v 8

set_option maxRecDepth 100000 in
theorem and240 : ∀ B < 256, B &&& 0xF0 = B / 16 * 16 := by
  decide

theorem or16 (a b : Nat) (h : b < 16) : (a * 16) ||| b = a * 16 + b := by
  have := Nat.mul_add_lt_is_or (i := 4) (b := b) (by simpa using h) a
  simp only [Nat.reducePow] at this
  rw [Nat.mul_comm a 16]
  exact this.symm

theorem or256 (a b : Nat) (h : b < 256) : (a * 256) ||| b = a * 256 + b := by
  have := Nat.mul_add_lt_is_or (i := 8) (b := b) (by simpa using h) a
  simp only [Nat.reducePow] at this
  rw [Nat.mul_comm a 256]
  exact this.symm

theorem nibble_even (B v : Nat) (hB : B < 256) :
    (B &&& 0xF0) ||| (v &&& 0xF) = B / 16 * 16 + v % 16 := by
  rw [and240 B hB, and15, or16 _ _ (Nat.mod_lt _ (by decide))]

theorem nibble_odd (B v : Nat) :
    (B &&& 0x0F) ||| ((v &&& 0xF) <<< 4) = v % 16 * 16 + B % 16 := by
  rw [and15, and15, Nat.shiftLeft_eq, Nat.lor_comm]
  exact or16 _ _ (Nat.mod_lt _ (by decide))

theorem decodeId_eq (a b : Nat) : decodeId a b = a * 256 + b % 256 := by
  unfold decodeId
  rw [and255, Nat.shiftLeft_eq]
  exact or256 _ _ (Nat.mod_lt _ (by decide))

theorem encodeAddNibble_eq (id : Nat) : encodeAddNibble id = id / 256 % 16 := by
  unfold encodeAddNibble
  rw [and15, Nat.shiftRight_eq_div_pow]

theorem encodeBlocksByte_eq (id : Nat) : encodeBlocksByte id = id % 256 := and255 id

/-! ## Array reads and writes -/

theorem readByte_eq (arr : List Int) (i : Int) (h0 : 0 ≤ i) (h1 : i.toNat < arr.length) :
    readByte arr i = some (arr.getD i.toNat 0) := by
  simp [readByte, h0, List.getD_eq_getElem?_getD, List.getElem?_eq_getElem h1]

theorem writeByte_eq (arr : List Int) (i v : Int) (h0 : 0 ≤ i) (h1 : i.toNat < arr.length) :
    writeByte arr i v = some (arr.set i.toNat v) := by
  simp [writeByte, h0, h1]

theorem getD_set (arr : List Int) (k j : Nat) (v : Int) (hk : k < arr.length) :
    (arr.set k v).getD j 0 = if j = k then v else arr.getD j 0 := by
  simp only [List.getD_eq_getElem?_getD, List.getElem?_set]
  by_cases h : k = j
  · subst h
    simp [hk]
  · have h2 : ¬ j = k := fun e => h e.symm
    simp [h, h2]

theorem getNibble_eq (arr : List Int) (index : Int) (h0 : 0 ≤ index)
    (h1 : index.toNat / 2 < arr.length) :
    getNibble arr index = some (specNibble arr index.toNat) := by
  have hk : (index / 2).toNat = index.toNat / 2 := by omega
  have hb := i2b_lt (arr.getD (index.toNat / 2) 0)
  unfold getNibble specNibble
  rw [readByte_eq arr (index / 2) (by omega) (by omega), hk]
  by_cases hp : index % 2 = 0
  · have hp2 : index.toNat % 2 = 0 := by omega
    simp only [hp, hp2, if_true, and15]
  · have hp2 : ¬ index.toNat % 2 = 0 := by omega
    simp only [hp, hp2, if_false, and15, Nat.shiftRight_eq_div_pow]
    congr 1
    omega

theorem setNibble_eq (arr : List Int) (index : Int) (v : Nat) (h0 : 0 ≤ index)
    (h1 : index.toNat / 2 < arr.length) :
    ∃ arr2, setNibble arr index v = some arr2 ∧ arr2.length = arr.length
      ∧ specNibble arr2 index.toNat = v % 16
      ∧ ∀ j : Nat, j ≠ index.toNat → specNibble arr2 j = specNibble arr j := by
  have hk : (index / 2).toNat = index.toNat / 2 := by omega
  have hb := i2b_lt (arr.getD (index.toNat / 2) 0)
  unfold setNibble
  rw [readByte_eq arr (index / 2) (by omega) (by omega), hk]
  by_cases hp : index % 2 = 0
  · have hp2 : index.toNat % 2 = 0 := by omega
    simp only [hp, if_true]
    rw [writeByte_eq arr (index / 2) _ (by omega) (by omega), hk, nibble_even _ _ hb]
    refine ⟨_, rfl, by simp, ?_, ?_⟩
    · unfold specNibble
      rw [getD_set _ _ _ _ h1]
      simp only [hp2, if_true]
      rw [i2b_b2i _ (by omega)]
      omega
    · intro j hj
      unfold specNibble
      rw [getD_set _ _ _ _ h1]
      by_cases hjk : j / 2 = index.toNat / 2
      · have hj2 : ¬ j % 2 = 0 := by omega
        simp only [hjk, hj2, if_true, if_false]
        rw [i2b_b2i _ (by omega)]
        omega
      · simp only [hjk, if_false]
  · have hp2 : ¬ index.toNat % 2 = 0 := by omega
    simp only [hp, if_false]
    rw [writeByte_eq arr (index / 2) _ (by omega) (by omega), hk, nibble_odd]
    refine ⟨_, rfl, by simp, ?_, ?_⟩
    · unfold specNibble
      rw [getD_set _ _ _ _ h1]
      simp only [hp2, if_true, if_false]
      rw [i2b_b2i _ (by omega)]
      omega
    · intro j hj
      unfold specNibble
      rw [getD_set _ _ _ _ h1]
      by_cases hjk : j / 2 = index.toNat / 2
      · have hj2 : j % 2 = 0 := by omega
        simp only [hjk, hj2, if_true]
        rw [i2b_b2i _ (by omega)]
        omega
      · simp only [hjk, if_false]

/-! ## GetBlock and SetBlock -/

theorem voxelIndex_range (x y z : Int) (h : VoxelInRange x y z) :
    0 ≤ voxelIndex x y z ∧ (voxelIndex x y z).toNat < 4096 := by
  unfold VoxelInRange at h
  unfold voxelIndex
  omega

theorem voxelIndex_inj (x y z x2 y2 z2 : Int) (h : VoxelInRange x y z)
    (h2 : VoxelInRange x2 y2 z2) (he : voxelIndex x2 y2 z2 = voxelIndex x y z) :
    x2 = x ∧ y2 = y ∧ z2 = z := by
  unfold VoxelInRange at h h2
  unfold voxelIndex at he
  omega

/-- Value of `GetBlock` at an index inside the arrays, by division. -/
theorem GetBlock_eq {Tag : Type} (s : Section Tag) (hs : s.WellSized) (x y z : Int)
    (h0 : 0 ≤ voxelIndex x y z) (h1 : (voxelIndex x y z).toNat < 4096) :
    s.GetBlock x y z = some
      { BlockId := specNibble s.add (voxelIndex x y z).toNat * 256
          + i2b (s.blocks.getD (voxelIndex x y z).toNat 0)
        Data := specNibble s.data (voxelIndex x y z).toNat
        metadata := s.metadata (voxelIndex x y z)
        ticks := s.ticks (voxelIndex x y z) } := by
  obtain ⟨hb, ha, hd, _, _⟩ := hs
  unfold Section.GetBlock
  simp only []
  rw [readByte_eq s.blocks _ h0 (by omega), getNibble_eq s.add _ h0 (by omega),
    getNibble_eq s.data _ h0 (by omega)]
  simp only [decodeId_eq]
  rw [Nat.mod_eq_of_lt (i2b_lt _)]

/-- Effect of `SetBlock` at an index inside the arrays. -/
theorem SetBlock_eq {Tag : Type} (s : Section Tag) (hs : s.WellSized) (x y z : Int)
    (h0 : 0 ≤ voxelIndex x y z) (h1 : (voxelIndex x y z).toNat < 4096) (block : Block Tag) :
    ∃ s2, s.SetBlock x y z block = some s2 ∧ s2.WellSized
      ∧ s2.blocks = s.blocks.set (voxelIndex x y z).toNat (b2i (block.BlockId % 256))
      ∧ specNibble s2.add (voxelIndex x y z).toNat = block.BlockId / 256 % 16
      ∧ (∀ j : Nat, j ≠ (voxelIndex x y z).toNat → specNibble s2.add j = specNibble s.add j)
      ∧ specNibble s2.data (voxelIndex x y z).toNat = block.Data % 16
      ∧ (∀ j : Nat, j ≠ (voxelIndex x y z).toNat → specNibble s2.data j = specNibble s.data j)
      ∧ s2.metadata (voxelIndex x y z) = (if block.HasMetadata then block.metadata else none)
      ∧ s2.ticks (voxelIndex x y z) = (if block.HasTicks then block.ticks else none)
      ∧ (∀ j : Int, j ≠ voxelIndex x y z → s2.metadata j = s.metadata j ∧ s2.ticks j = s.ticks j)
      ∧ s2.y = s.y ∧ s2.tagY = s.tagY := by
  obtain ⟨hb, ha, hd, hbl, hsl⟩ := hs
  obtain ⟨add2, hadd, haddlen, haddv, haddo⟩ :=
    setNibble_eq s.add (voxelIndex x y z) (encodeAddNibble block.BlockId) h0 (by omega)
  obtain ⟨data2, hdata, hdatalen, hdatav, hdatao⟩ :=
    setNibble_eq s.data (voxelIndex x y z) (block.Data &&& 0xF) h0 (by omega)
  unfold Section.SetBlock
  simp only []
  rw [writeByte_eq s.blocks _ _ h0 (by omega), hadd, hdata]
  refine ⟨_, rfl, ?_, ?_, ?_, haddo, ?_, hdatao, ?_, ?_, ?_, rfl, rfl⟩
  · exact ⟨by simp [hb], by simp [haddlen, ha], by simp [hdatalen, hd], hbl, hsl⟩
  · simp only [encodeBlocksByte_eq]
  · simp only [haddv, encodeAddNibble_eq]
    omega
  · simp only [hdatav, and15]
    omega
  · simp
  · simp
  · intro j hj
    simp [hj]

/-- Round trip and frame of `SetBlock` followed by `GetBlock` on a section with
arrays of the required sizes. -/
theorem SetBlock_GetBlock {Tag : Type} (s : Section Tag) (hs : s.WellSized) (x y z : Int)
    (h : VoxelInRange x y z) (block : Block Tag) :
    ∃ s2, s.SetBlock x y z block = some s2 ∧ s2.WellSized
      ∧ s2.GetBlock x y z = some
          { BlockId := block.BlockId % 4096
            Data := block.Data % 16
            metadata := if block.HasMetadata then block.metadata else none
            ticks := if block.HasTicks then block.ticks else none }
      ∧ ∀ x2 y2 z2 : Int, VoxelInRange x2 y2 z2 → ¬ (x2 = x ∧ y2 = y ∧ z2 = z) →
          s2.GetBlock x2 y2 z2 = s.GetBlock x2 y2 z2 := by
  obtain ⟨h0, h1⟩ := voxelIndex_range x y z h
  obtain ⟨s2, hset, hws, hblocks, haddv, haddo, hdatav, hdatao, hmeta, hticks, hother, _, _⟩ :=
    SetBlock_eq s hs x y z h0 h1 block
  refine ⟨s2, hset, hws, ?_, ?_⟩
  · rw [GetBlock_eq s2 hws x y z h0 h1, hblocks, haddv, hdatav, hmeta, hticks,
      getD_set _ _ _ _ (by rw [hs.1]; exact h1)]
    simp only [if_true]
    rw [i2b_b2i _ (Nat.mod_lt _ (by decide))]
    congr 2
    omega
  · intro x2 y2 z2 hr hne
    obtain ⟨g0, g1⟩ := voxelIndex_range x2 y2 z2 hr
    have hidx : voxelIndex x2 y2 z2 ≠ voxelIndex x y z :=
      fun he => hne (voxelIndex_inj x y z x2 y2 z2 h hr he)
    have hidx2 : (voxelIndex x2 y2 z2).toNat ≠ (voxelIndex x y z).toNat := by omega
    rw [GetBlock_eq s2 hws x2 y2 z2 g0 g1, GetBlock_eq s hs x2 y2 z2 g0 g1, hblocks,
      haddo _ hidx2, hdatao _ hidx2, (hother _ hidx).1, (hother _ hidx).2,
      getD_set _ _ _ _ (by rw [hs.1]; exact h1)]
    simp only [hidx2, if_false]

theorem writeByte_length (arr arr2 : List Int) (i v : Int) (h : writeByte arr i v = some arr2) :
    arr2.length = arr.length := by
  unfold writeByte at h
  split at h
  · simp only [Option.some.injEq] at h
    rw [← h, List.length_set]
  · simp at h

theorem setNibble_length (arr arr2 : List Int) (index : Int) (v : Nat)
    (h : setNibble arr index v = some arr2) : arr2.length = arr.length := by
  unfold setNibble at h
  split at h
  · simp at h
  · split at h <;> exact writeByte_length _ _ _ _ h

theorem SetBlock_WellSized {Tag : Type} (s t : Section Tag) (x y z : Int) (block : Block Tag)
    (hs : s.WellSized) (h : s.SetBlock x y z block = some t) : t.WellSized := by
  obtain ⟨hb, ha, hd, hbl, hsl⟩ := hs
  unfold Section.SetBlock at h
  simp only [] at h
  split at h
  · rename_i blocks add data hw hsa hsd
    simp only [Option.some.injEq] at h
    rw [← h]
    exact ⟨(writeByte_length _ _ _ _ hw).trans hb, (setNibble_length _ _ _ _ hsa).trans ha,
      (setNibble_length _ _ _ _ hsd).trans hd, hbl, hsl⟩
  · simp at h

theorem newSection_WellSized (Tag : Type) (worldY : Int) : (newSection Tag worldY).WellSized := by
  simp only [newSection, Section.SetY, Section.WellSized, List.length_replicate, and_self]

theorem runSetBlocks_WellSized {Tag : Type} (ops : List (SetOp Tag)) :
    ∀ s t : Section Tag, s.WellSized → runSetBlocks s ops = some t → t.WellSized := by
  induction ops with
  | nil =>
    intro s t hs h
    simp only [runSetBlocks, Option.some.injEq] at h
    rw [← h]
    exact hs
  | cons op rest ih =>
    intro s t hs h
    unfold runSetBlocks at h
    cases hset : s.SetBlock op.x op.y op.z op.block with
    | none => simp [hset] at h
    | some u =>
      simp only [hset] at h
      exact ih u t (SetBlock_WellSized s u op.x op.y op.z op.block hs hset) h

/-! ## Claims about the Section -/

/-- C7: for every id in [0,4095], encoding it as `blocksByte = id & 0xFF` and
`addNibble = (id >> 8) & 0xF` and decoding as
`(addNibble << 8) | (blocksByte & 0xFF)` gives back id, with blocksByte in
[0,255] and addNibble in [0,15]; id 255 has add nibble 0 (and blocks byte 255),
id 256 has add nibble 1, id 4095 has add nibble 15, and id 4096 does not
survive the round trip. -/
theorem extendedId_roundtrip (id : Nat) (h : id ≤ 4095) :
    decodeId (encodeAddNibble id) (encodeBlocksByte id) = id
      ∧ encodeBlocksByte id ≤ 255 ∧ encodeAddNibble id ≤ 15
      ∧ encodeAddNibble 255 = 0 ∧ encodeBlocksByte 255 = 255
      ∧ encodeAddNibble 256 = 1
      ∧ encodeAddNibble 4095 = 15
      ∧ decodeId (encodeAddNibble 4096) (encodeBlocksByte 4096) ≠ 4096 := by
  simp only [decodeId_eq, encodeAddNibble_eq, encodeBlocksByte_eq]
  refine ⟨by omega, by omega, by omega, by decide, by decide, by decide, by decide, by decide⟩

/-- Witness of `extendedId_roundtrip` at id 1474 of the test fixture. -/
theorem extendedId_roundtrip_witness :
    1474 ≤ 4095 ∧ decodeId (encodeAddNibble 1474) (encodeBlocksByte 1474) = 1474
      ∧ encodeBlocksByte 1474 = 194 ∧ encodeAddNibble 1474 = 5 :=
  ⟨by decide, (extendedId_roundtrip 1474 (by decide)).1, by decide, by decide⟩

/-- C8: for every world Y in [0,255], `newSection(Y)` and `SetY(Y)` (on any
section, whatever Y it had) leave the stored Y tag, and the field y, equal to
floor(Y/16), a value in [0,15]; on the test inputs 0 gives 0, 16 gives 1, then
`SetY(48)` gives 3 and `SetY(255)` gives 15. -/
theorem SetY_slab {Tag : Type} (worldY : Int) (h0 : 0 ≤ worldY) (h1 : worldY ≤ 255)
    (s : Section Tag) :
    (newSection Tag worldY).tagY = Int.fdiv worldY 16
      ∧ (newSection Tag worldY).y = Int.fdiv worldY 16
      ∧ (s.SetY worldY).tagY = Int.fdiv worldY 16
      ∧ (s.SetY worldY).y = Int.fdiv worldY 16
      ∧ 0 ≤ Int.fdiv worldY 16 ∧ Int.fdiv worldY 16 ≤ 15
      ∧ (newSection Tag 0).tagY = 0
      ∧ (newSection Tag 16).tagY = 1
      ∧ ((newSection Tag 16).SetY 48).tagY = 3
      ∧ (((newSection Tag 16).SetY 48).SetY 255).tagY = 15 := by
  have hf : Int.fdiv worldY 16 = worldY / 16 := Int.fdiv_eq_ediv worldY (by decide)
  have hslab : slabY worldY = Int.fdiv worldY 16 := by
    unfold slabY
    rw [hf]
    omega
  refine ⟨hslab, hslab, hslab, hslab, ?_, ?_, ?_, ?_, ?_, ?_⟩
  · rw [hf]
    omega
  · rw [hf]
    omega
  · show slabY 0 = 0
    decide
  · show slabY 16 = 1
    decide
  · show slabY 48 = 3
    decide
  · show slabY 255 = 15
    decide

/-- Witness of `SetY_slab` at world Y 200 on the section of the test. -/
theorem SetY_slab_witness :
    ((newSection SimpleTag 32).SetY 200).tagY = Int.fdiv 200 16 ∧ Int.fdiv 200 16 = 12 :=
  ⟨(SetY_slab 200 (by decide) (by decide) (newSection SimpleTag 32)).2.2.1, by decide⟩

theorem sliceElems_of_len_zero {α : Type} (s : Option (List α)) (h : sliceLen s = 0) :
    sliceElems s = [] := by
  cases s with
  | none => rfl
  | some l => exact List.length_eq_zero.mp h

/-- C4: for every Section reached from `newSection` by any run of earlier
`SetBlock` calls, every coordinate with x, y, z in [0,15] and every Block with
id in [0,4095], data in [0,15] and no metadata or ticks, `SetBlock` succeeds
and `GetBlock` at the same coordinate then returns a Block with the same id and
the same data, which `Equal` (in both directions) finds equal to the one
set. -/
theorem SetBlock_roundtrip {Tag : Type} (ops : TagOps Tag) (worldY : Int)
    (earlier : List (SetOp Tag)) (s : Section Tag)
    (hs : runSetBlocks (newSection Tag worldY) earlier = some s)
    (x y z : Int) (h : VoxelInRange x y z) (block : Block Tag)
    (hid : block.BlockId ≤ 4095) (hdata : block.Data ≤ 15)
    (hmeta : sliceLen block.metadata = 0) (hticks : sliceLen block.ticks = 0) :
    ∃ s2 g, s.SetBlock x y z block = some s2 ∧ s2.GetBlock x y z = some g
      ∧ g.BlockId = block.BlockId ∧ g.Data = block.Data
      ∧ block.Equal ops (.blockVal g) = true ∧ g.Equal ops (.blockVal block) = true := by
  have hws := runSetBlocks_WellSized earlier _ s (newSection_WellSized Tag worldY) hs
  obtain ⟨s2, hset, _, hget, _⟩ := SetBlock_GetBlock s hws x y z h block
  have hm : block.HasMetadata = false := by simp [Block.HasMetadata, hmeta]
  have ht : block.HasTicks = false := by simp [Block.HasTicks, hticks]
  have hme := sliceElems_of_len_zero _ hmeta
  have hte := sliceElems_of_len_zero _ hticks
  rw [hm, ht, Nat.mod_eq_of_lt (show block.BlockId < 4096 by omega),
    Nat.mod_eq_of_lt (show block.Data < 16 by omega)] at hget
  simp only [Bool.false_eq_true, if_false] at hget
  refine ⟨s2, _, hset, hget, rfl, rfl, ?_, ?_⟩
  · rw [Equal_some ops block _ (.blockVal _) rfl]
    refine ⟨rfl, rfl, hmeta, hticks, ?_, ?_⟩
    · rw [hte]
      rfl
    · rw [hme]
      rfl
  · rw [Equal_some ops _ block (.blockVal _) rfl]
    refine ⟨rfl, rfl, hmeta.symm, hticks.symm, ?_, ?_⟩
    · rfl
    · rfl

/-- Witness of `SetBlock_roundtrip`: the first write of `TestSetBlock`, id 12
and data 4 at (4, 7, 9) in `newSection(32)`. -/
theorem SetBlock_roundtrip_witness :
    ∃ s2 g, (newSection SimpleTag 32).SetBlock 4 7 9 ⟨12, 4, none, none⟩ = some s2
      ∧ s2.GetBlock 4 7 9 = some g ∧ g.BlockId = 12 ∧ g.Data = 4
      ∧ Block.Equal simpleOps ⟨12, 4, none, none⟩ (.blockVal g) = true
      ∧ g.Equal simpleOps (.blockVal ⟨12, 4, none, none⟩) = true :=
  SetBlock_roundtrip simpleOps 32 [] (newSection SimpleTag 32) rfl 4 7 9
    (by unfold VoxelInRange; omega) ⟨12, 4, none, none⟩ (by decide) (by decide) rfl rfl

/-- C5: for every Section with arrays of the required sizes, every two
distinct voxels v1 and v2 with coordinates in [0,15] and every Block value,
`SetBlock` at v1 succeeds and `GetBlock` at v2 returns afterwards the very
Block it returned before; this covers voxels whose flattened indices are 2k
and 2k+1 and share a byte of the add and data arrays. -/
theorem SetBlock_frame {Tag : Type} (s : Section Tag) (hs : s.WellSized)
    (x1 y1 z1 x2 y2 z2 : Int) (h1 : VoxelInRange x1 y1 z1) (h2 : VoxelInRange x2 y2 z2)
    (hne : ¬ (x2 = x1 ∧ y2 = y1 ∧ z2 = z1)) (block : Block Tag) :
    ∃ s2 g, s.SetBlock x1 y1 z1 block = some s2
      ∧ s.GetBlock x2 y2 z2 = some g ∧ s2.GetBlock x2 y2 z2 = some g := by
  obtain ⟨s2, hset, _, _, hframe⟩ := SetBlock_GetBlock s hs x1 y1 z1 h1 block
  obtain ⟨g0, g1⟩ := voxelIndex_range x2 y2 z2 h2
  refine ⟨s2, _, hset, GetBlock_eq s hs x2 y2 z2 g0 g1, ?_⟩
  rw [hframe x2 y2 z2 h2 hne]
  exact GetBlock_eq s hs x2 y2 z2 g0 g1

/-- Witness of `SetBlock_frame`: voxels (2, 12, 10) and (3, 12, 10) have the
flattened indices 3234 and 3235 and share byte 1617 of the nibble arrays. -/
theorem SetBlock_frame_witness :
    voxelIndex 2 12 10 = 2 * 1617 ∧ voxelIndex 3 12 10 = 2 * 1617 + 1
      ∧ ∃ s2 g, (newSection SimpleTag 32).SetBlock 3 12 10 ⟨451, 11, none, none⟩ = some s2
        ∧ (newSection SimpleTag 32).GetBlock 2 12 10 = some g
        ∧ s2.GetBlock 2 12 10 = some g :=
  ⟨by decide, by decide,
    SetBlock_frame (newSection SimpleTag 32) (newSection_WellSized SimpleTag 32)
      3 12 10 2 12 10 (by unfold VoxelInRange; omega) (by unfold VoxelInRange; omega)
      (by omega) ⟨451, 11, none, none⟩⟩

/-! ## loadSection -/

theorem loadByteArray_ok (c : List NamedTag) (name : String) (size : Nat) (a : List Int)
    (hget : compoundGet c name = some (.byteArray a)) (hlen : a.length = size) :
    loadByteArray c name size = .ok a := by
  simp [loadByteArray, hget, hlen]

/-- On a compound holding the six tags with the required sizes `loadSection`
succeeds and the section holds the arrays of the compound. -/
theorem loadSection_ok (Tag : Type) (c : List NamedTag)
    (blocks add data blockLight skyLight : List Int) (yv : Int)
    (hB : compoundGet c "Blocks" = some (.byteArray blocks)) (hBl : blocks.length = 4096)
    (hA : compoundGet c "Add" = some (.byteArray add)) (hAl : add.length = 2048)
    (hD : compoundGet c "Data" = some (.byteArray data)) (hDl : data.length = 2048)
    (hL : compoundGet c "BlockLight" = some (.byteArray blockLight))
    (hLl : blockLight.length = 2048)
    (hS : compoundGet c "SkyLight" = some (.byteArray skyLight)) (hSl : skyLight.length = 2048)
    (hY : compoundGet c "Y" = some (.byte yv)) :
    loadSection Tag c = .ok
      { y := yv
        tagY := yv
        blocks := blocks
        add := add
        data := data
        blockLight := blockLight
        skyLight := skyLight
        metadata := fun _ => none
        ticks := fun _ => none } := by
  unfold loadSection
  rw [loadByteArray_ok c _ _ _ hB hBl, loadByteArray_ok c _ _ _ hA hAl,
    loadByteArray_ok c _ _ _ hD hDl, loadByteArray_ok c _ _ _ hL hLl,
    loadByteArray_ok c _ _ _ hS hSl]
  simp only [hY]

theorem testBlocks_length : testBlocks.length = 4096 := by
  simp only [testBlocks, List.length_set, List.length_replicate]

theorem testAdd_length : testAdd.length = 2048 := by
  simp only [testAdd, List.length_set, List.length_replicate]

theorem testData_length : testData.length = 2048 := by
  simp only [testData, List.length_set, List.length_replicate]

set_option maxRecDepth 100000 in
theorem testArrays_values :
    (testBlocks.getD 4054 0 = -62 ∧ specNibble testAdd 4054 = 5 ∧ specNibble testData 4054 = 8)
      ∧ (i2b (testBlocks.getD 18 0) = 24 ∧ specNibble testAdd 18 = 7
          ∧ specNibble testData 18 = 0)
      ∧ (i2b (testBlocks.getD 19 0) = 13 ∧ specNibble testAdd 19 = 12
          ∧ specNibble testData 19 = 0) := by
  decide

theorem loadSection_testCompound (Tag : Type) :
    loadSection Tag testCompound = .ok
      { y := 0
        tagY := 0
        blocks := testBlocks
        add := testAdd
        data := testData
        blockLight := List.replicate 2048 0
        skyLight := List.replicate 2048 0
        metadata := fun _ => none
        ticks := fun _ => none } :=
  loadSection_ok Tag testCompound testBlocks testAdd testData (List.replicate 2048 0)
    (List.replicate 2048 0) 0 rfl testBlocks_length rfl testAdd_length rfl testData_length
    rfl (List.length_replicate _ _) rfl (List.length_replicate _ _) rfl

/-- C6: for every Section loaded from a compound holding Blocks (4096 bytes),
Add, Data, BlockLight and SkyLight (2048 bytes each) and Y, and every
coordinate with x, y, z in [0,15], `GetBlock(x, y, z)` returns
id = (addNibble << 8) | (Blocks[index] read as unsigned) and data = dataNibble
with index = y*256 + z*16 + x, the nibble being the low 4 bits of byte index/2
for an even index and the high 4 bits for an odd one. On the compound of the
test, where Blocks[4054] is stored as -62 (unsigned 194), this gives id 1474
and data 8 at (6, 15, 13), id 1816 at (2, 0, 1) and id 3085 at (3, 0, 1). -/
theorem loadSection_GetBlock {Tag : Type} (c : List NamedTag)
    (blocks add data blockLight skyLight : List Int) (yv : Int)
    (hB : compoundGet c "Blocks" = some (.byteArray blocks)) (hBl : blocks.length = 4096)
    (hA : compoundGet c "Add" = some (.byteArray add)) (hAl : add.length = 2048)
    (hD : compoundGet c "Data" = some (.byteArray data)) (hDl : data.length = 2048)
    (hL : compoundGet c "BlockLight" = some (.byteArray blockLight))
    (hLl : blockLight.length = 2048)
    (hS : compoundGet c "SkyLight" = some (.byteArray skyLight)) (hSl : skyLight.length = 2048)
    (hY : compoundGet c "Y" = some (.byte yv))
    (x y z : Int) (h : VoxelInRange x y z) :
    (∃ s g, loadSection Tag c = .ok s ∧ s.GetBlock x y z = some g
      ∧ g.BlockId = ((specNibble add (y * 256 + z * 16 + x).toNat) <<< 8)
          ||| i2b (blocks.getD (y * 256 + z * 16 + x).toNat 0)
      ∧ g.Data = specNibble data (y * 256 + z * 16 + x).toNat)
    ∧ testBlocks.getD 4054 0 = -62
    ∧ (∃ s : Section Tag, loadSection Tag testCompound = .ok s
        ∧ s.GetBlock 6 15 13 = some ⟨1474, 8, none, none⟩
        ∧ s.GetBlock 2 0 1 = some ⟨1816, 0, none, none⟩
        ∧ s.GetBlock 3 0 1 = some ⟨3085, 0, none, none⟩) := by
  have hor : ∀ a v : Int, ((specNibble add a.toNat) <<< 8) ||| i2b v
      = specNibble add a.toNat * 256 + i2b v := by
    intro a v
    rw [Nat.shiftLeft_eq]
    exact or256 _ _ (i2b_lt v)
  refine ⟨?_, testArrays_values.1.1, ?_⟩
  · obtain ⟨h0, h1⟩ := voxelIndex_range x y z h
    refine ⟨_, _, loadSection_ok Tag c blocks add data blockLight skyLight yv
      hB hBl hA hAl hD hDl hL hLl hS hSl hY,
      GetBlock_eq _ ⟨hBl, hAl, hDl, hLl, hSl⟩ x y z h0 h1, ?_, rfl⟩
    rw [hor]
    rfl
  · have hws : Section.WellSized
        ({ y := 0, tagY := 0, blocks := testBlocks, add := testAdd, data := testData
           blockLight := List.replicate 2048 0, skyLight := List.replicate 2048 0
           metadata := fun _ => none, ticks := fun _ => none } : Section Tag) :=
      ⟨testBlocks_length, testAdd_length, testData_length, List.length_replicate _ _,
        List.length_replicate _ _⟩
    obtain ⟨⟨a1, a2, a3⟩, ⟨b1, b2, b3⟩, ⟨c1, c2, c3⟩⟩ := testArrays_values
    refine ⟨_, loadSection_testCompound Tag, ?_, ?_, ?_⟩
    · rw [GetBlock_eq _ hws 6 15 13 (by decide) (by decide)]
      show some (Block.mk (specNibble testAdd 4054 * 256 + i2b (testBlocks.getD 4054 0))
        (specNibble testData 4054) none none) = _
      rw [a1, a2, a3]
      rfl
    · rw [GetBlock_eq _ hws 2 0 1 (by decide) (by decide)]
      show some (Block.mk (specNibble testAdd 18 * 256 + i2b (testBlocks.getD 18 0))
        (specNibble testData 18) none none) = _
      rw [b1, b2, b3]
    · rw [GetBlock_eq _ hws 3 0 1 (by decide) (by decide)]
      show some (Block.mk (specNibble testAdd 19 * 256 + i2b (testBlocks.getD 19 0))
        (specNibble testData 19) none none) = _
      rw [c1, c2, c3]

/-- Witness of `loadSection_GetBlock`: the last case of `TestGetBlock`, the
compound of the test read at (9, 12, 11), an untouched voxel. -/
theorem loadSection_GetBlock_witness :
    ∃ s g, loadSection SimpleTag testCompound = .ok s ∧ s.GetBlock 9 12 11 = some g
      ∧ g.BlockId = ((specNibble testAdd (12 * 256 + 11 * 16 + 9 : Int).toNat) <<< 8)
          ||| i2b (testBlocks.getD (12 * 256 + 11 * 16 + 9 : Int).toNat 0)
      ∧ g.Data = specNibble testData (12 * 256 + 11 * 16 + 9 : Int).toNat :=
  (loadSection_GetBlock testCompound testBlocks testAdd testData (List.replicate 2048 0)
    (List.replicate 2048 0) 0 rfl testBlocks_length rfl testAdd_length rfl testData_length
    rfl (List.length_replicate _ _) rfl (List.length_replicate _ _) rfl
    9 12 11 (by unfold VoxelInRange; omega)).1

/-! ## Claims about ticks, IsLiquid and the mutators -/

/-- C11: for every Block and every list of ticks t, after `SetTicks(t)`
`GetTicks` returns a list with exactly the ticks of t in the same order
(whatever ticks the Block held before), and `HasTicks` returns true exactly
when t is non-empty. -/
theorem SetTicks_GetTicks {Tag : Type} (b : Block Tag) (t : List Tick) :
    (b.SetTicks t).GetTicks = some t
      ∧ sliceElems (b.SetTicks t).GetTicks = t
      ∧ sliceLen (b.SetTicks t).GetTicks = t.length
      ∧ ((b.SetTicks t).HasTicks = true ↔ t ≠ []) := by
  refine ⟨rfl, rfl, rfl, ?_⟩
  simp [Block.HasTicks, Block.SetTicks, sliceLen, List.length_pos]

/-- C12: for every Block and every sequence of ticks t (possibly empty), after
`AddTicks(t...)` `GetTicks` returns the ticks the Block held before followed
by those of t in order; with no tick given the tick list is unchanged. -/
theorem AddTicks_GetTicks {Tag : Type} (b : Block Tag) (t : List Tick) :
    sliceElems (b.AddTicks t).GetTicks = sliceElems b.ticks ++ t
      ∧ (b.AddTicks []).ticks = b.ticks
      ∧ sliceElems (b.AddTicks []).GetTicks = sliceElems b.GetTicks := by
  refine ⟨?_, ?_, ?_⟩
  · cases hb : b.ticks <;> cases t <;> simp [Block.AddTicks, Block.GetTicks, sliceElems, hb]
  · cases hb : b.ticks <;> simp [Block.AddTicks, sliceElems, hb]
  · cases hb : b.ticks <;> simp [Block.AddTicks, Block.GetTicks, sliceElems, hb]

/-- C13: for every Block, `IsLiquid` returns true if and only if its id is one
of 8, 9, 10, 11. -/
theorem IsLiquid_iff {Tag : Type} (b : Block Tag) :
    b.IsLiquid = true ↔ (b.BlockId = 8 ∨ b.BlockId = 9 ∨ b.BlockId = 10 ∨ b.BlockId = 11) := by
  simp [Block.IsLiquid, or_assoc]

/-! ## Symmetry and reflexivity of Equal -/

theorem sliceLen_eq_length {α : Type} (s : Option (List α)) :
    sliceLen s = (sliceElems s).length := by
  cases s <;> rfl

/-- A list without repetition contained in a list that is not longer covers
it. -/
theorem subset_of_nodup_of_length {α : Type} (l1 l2 : List α) (hnd : l1.Nodup)
    (hsub : l1 ⊆ l2) (hlen : l2.length ≤ l1.length) : l2 ⊆ l1 := by
  have hperm : List.Perm l1 l2 := (List.subperm_of_subset hnd hsub).perm_of_length_le hlen
  intro a ha
  exact hperm.mem_iff.mpr ha

/-- Among tags of pairwise distinct names the lookup by name of a member finds
that member. -/
theorem find_by_name_of_nodup {Tag : Type} (ops : TagOps Tag) (l : List Tag) (w v : Tag)
    (hnd : (l.map ops.Name).Nodup) (hw : w ∈ l) (hname : ops.Name w = ops.Name v) :
    l.find? (fun u => ops.Name u == ops.Name v) = some w := by
  have hsome : (l.find? (fun u => ops.Name u == ops.Name v)).isSome := by
    rw [List.find?_isSome]
    exact ⟨w, hw, by simp [hname]⟩
  obtain ⟨u, hu⟩ := Option.isSome_iff_exists.mp hsome
  have huname : ops.Name u = ops.Name v := by
    have := List.find?_some hu
    simpa using this
  have huw : u = w :=
    List.inj_on_of_nodup_map hnd (List.mem_of_find?_eq_some hu) hw (huname.trans hname.symm)
  rw [hu, huw]

theorem metadataFound_self {Tag : Type} (ops : TagOps Tag) (l : List Tag) (v : Tag)
    (hrefl : ∀ t, ops.Equal t t = true) (hnd : (l.map ops.Name).Nodup) (hv : v ∈ l) :
    metadataFound ops v l = true := by
  rw [metadataFound_iff]
  exact ⟨v, find_by_name_of_nodup ops l v v hnd hv rfl, hrefl v⟩

theorem tickFound_self (l : List Tick) (t : Tick) (ht : t ∈ l) : tickFound t l = true := by
  rw [tickFound_iff]
  exact ⟨t, ht, rfl, rfl, rfl⟩

theorem tickFound_iff_mem (l : List Tick) (t : Tick) : tickFound t l = true ↔ t ∈ l := by
  rw [tickFound_iff]
  constructor
  · rintro ⟨c, hc, h1, h2, h3⟩
    have : t = c := by
      cases t
      cases c
      simp only [Tick.mk.injEq]
      exact ⟨h1, h2, h3⟩
    rw [this]
    exact hc
  · intro h
    exact ⟨t, h, rfl, rfl, rfl⟩

/-- One direction of the symmetry of `Equal` without repeated ticks in b and
with pairwise distinct names in both metadata lists. -/
theorem Equal_swap {Tag : Type} (ops : TagOps Tag) (b c : Block Tag)
    (hsymm : ∀ v w, ops.Equal v w = ops.Equal w v)
    (hbt : (sliceElems b.ticks).Nodup)
    (hbm : ((sliceElems b.metadata).map ops.Name).Nodup)
    (hcm : ((sliceElems c.metadata).map ops.Name).Nodup)
    (h : b.Equal ops (.blockVal c) = true) : c.Equal ops (.blockVal b) = true := by
  rw [Equal_some ops b c (.blockVal c) rfl, ticksLoop_iff, metadataLoop_iff] at h
  obtain ⟨hid, hdata, hml, htl, hticks, hmeta⟩ := h
  rw [Equal_some ops c b (.blockVal b) rfl, ticksLoop_iff, metadataLoop_iff]
  refine ⟨hid.symm, hdata.symm, hml.symm, htl.symm, ?_, ?_⟩
  · have hsub : sliceElems b.ticks ⊆ sliceElems c.ticks := by
      intro t ht
      exact (tickFound_iff_mem _ t).mp (hticks t ht)
    have hback := subset_of_nodup_of_length _ _ hbt hsub
      (by rw [← sliceLen_eq_length, ← sliceLen_eq_length, htl])
    intro t ht
    exact tickFound_self _ t (hback ht)
  · have hnames : (sliceElems b.metadata).map ops.Name ⊆ (sliceElems c.metadata).map ops.Name := by
      intro n hn
      obtain ⟨v, hv, rfl⟩ := List.mem_map.mp hn
      obtain ⟨w, hw, _⟩ := (metadataFound_iff ops v _).mp (hmeta v hv)
      have hwn : ops.Name w = ops.Name v := by
        have := List.find?_some hw
        simpa using this
      exact List.mem_map.mpr ⟨w, List.mem_of_find?_eq_some hw, hwn⟩
    have hback := subset_of_nodup_of_length _ _ hbm hnames
      (by rw [List.length_map, List.length_map, ← sliceLen_eq_length, ← sliceLen_eq_length, hml])
    intro w hw
    obtain ⟨v, hv, hvn⟩ := List.mem_map.mp (hback (List.mem_map.mpr ⟨w, hw, rfl⟩))
    obtain ⟨w2, hw2, heq⟩ := (metadataFound_iff ops v _).mp (hmeta v hv)
    have hfind := find_by_name_of_nodup ops (sliceElems c.metadata) w v hcm hw hvn.symm
    rw [hfind] at hw2
    have hww : w = w2 := Option.some.inj hw2
    rw [metadataFound_iff]
    refine ⟨v, find_by_name_of_nodup ops (sliceElems b.metadata) v w hbm hv hvn, ?_⟩
    rw [hsymm, hww]
    exact heq

/-- C14: `Equal` is not symmetric in general, even with a tag equality that is
structural: `twiceTickBlock` (the same tick twice) equals `twoTicksBlock` but
not the other way round, and `twiceNameBlock` (the same tag name twice) equals
`twoNamesBlock` but not the other way round. -/
theorem Equal_not_symmetric :
    (∃ b c : Block SimpleTag, ¬ (sliceElems b.ticks).Nodup
        ∧ b.Equal simpleOps (.blockVal c) = true ∧ c.Equal simpleOps (.blockVal b) = false)
      ∧ (∃ b c : Block SimpleTag, ¬ ((sliceElems b.metadata).map simpleOps.Name).Nodup
        ∧ b.Equal simpleOps (.blockVal c) = true ∧ c.Equal simpleOps (.blockVal b) = false) :=
  ⟨⟨twiceTickBlock, twoTicksBlock, by decide, by decide, by decide⟩,
    ⟨twiceNameBlock, twoNamesBlock, by decide, by decide, by decide⟩⟩

/-- C15: for every pair of Blocks b and c in which neither tick list contains
the same tick twice and neither metadata list contains two tags of the same
name, with a symmetric tag equality, `b.Equal(c)` and `c.Equal(b)` return the
same value. -/
theorem Equal_symmetric {Tag : Type} (ops : TagOps Tag) (b c : Block Tag)
    (hsymm : ∀ v w, ops.Equal v w = ops.Equal w v)
    (hbt : (sliceElems b.ticks).Nodup) (hct : (sliceElems c.ticks).Nodup)
    (hbm : ((sliceElems b.metadata).map ops.Name).Nodup)
    (hcm : ((sliceElems c.metadata).map ops.Name).Nodup) :
    b.Equal ops (.blockVal c) = c.Equal ops (.blockVal b) := by
  cases h1 : b.Equal ops (.blockVal c) <;> cases h2 : c.Equal ops (.blockVal b)
  · rfl
  · have := Equal_swap ops c b hsymm hct hcm hbm h2
    rw [h1] at this
    exact this
  · have := Equal_swap ops b c hsymm hbt hbm hcm h1
    rw [h2] at this
    exact this.symm
  · rfl

/-- Witness of `Equal_symmetric` at `sampleBlock` and its reordering. -/
theorem Equal_symmetric_witness :
    sampleBlock.Equal simpleOps (.blockVal sampleBlockSwapped)
        = sampleBlockSwapped.Equal simpleOps (.blockVal sampleBlock)
      ∧ sampleBlock.Equal simpleOps (.blockVal sampleBlockSwapped) = true :=
  ⟨Equal_symmetric simpleOps sampleBlock sampleBlockSwapped
      (by intro v w; simp [simpleOps, eq_comm])
      (by decide) (by decide) (by decide) (by decide),
    by decide⟩

/-- C16: for every Block b whose metadata tags have pairwise distinct names,
with a reflexive tag equality, `b.Equal(b)` returns true whatever its ticks
are, repeated ticks included. -/
theorem Equal_refl {Tag : Type} (ops : TagOps Tag) (b : Block Tag)
    (hrefl : ∀ t, ops.Equal t t = true)
    (hnames : ((sliceElems b.metadata).map ops.Name).Nodup) :
    b.Equal ops (.blockVal b) = true := by
  rw [Equal_some ops b b (.blockVal b) rfl, ticksLoop_iff, metadataLoop_iff]
  exact ⟨rfl, rfl, rfl, rfl, fun t ht => tickFound_self _ t ht,
    fun v hv => metadataFound_self ops _ v hrefl hnames hv⟩

/-- Witness of `Equal_refl` at `twiceTickBlock`, which holds one tick twice. -/
theorem Equal_refl_witness :
    ¬ (sliceElems twiceTickBlock.ticks).Nodup
      ∧ twiceTickBlock.Equal simpleOps (.blockVal twiceTickBlock) = true :=
  ⟨by decide, Equal_refl simpleOps twiceTickBlock (by intro t; simp [simpleOps]) (by decide)⟩

/-! ## Idempotence of SetMetadata and the frame of the mutators -/

theorem GetMetadata_elems {Tag : Type} (ops : TagOps Tag) (b : Block Tag) :
    sliceElems (b.GetMetadata ops) = (sliceElems b.metadata).map ops.Copy := by
  unfold Block.GetMetadata
  cases b.metadata <;> rfl

/-- Every tag stored by the loop of `SetMetadata` is the copy of a tag that is
neither positional nor an end-marker. -/
theorem setMetadataLoop_mem {Tag : Type} (ops : TagOps Tag) (data : List Tag) :
    ∀ t ∈ setMetadataLoop ops data,
      ∃ u, t = ops.Copy u ∧ isCoordTag ops u = false ∧ ops.TagId u ≠ Tag_End := by
  induction data with
  | nil =>
    intro t ht
    simp [setMetadataLoop] at ht
  | cons d rest ih =>
    intro t ht
    unfold setMetadataLoop at ht
    by_cases hc : (ops.Name d == "x" || ops.Name d == "y" || ops.Name d == "z") = true
    · rw [if_pos hc] at ht
      exact ih t ht
    · rw [if_neg hc] at ht
      by_cases he : (ops.TagId d == Tag_End) = true
      · rw [if_pos he] at ht
        simp at ht
      · rw [if_neg he] at ht
        rcases List.mem_cons.mp ht with h | h
        · refine ⟨d, h, ?_, ?_⟩
          · simpa [isCoordTag] using hc
          · simpa using he
        · exact ih t h

/-- On tags that are neither positional nor end-markers the loop of
`SetMetadata` copies every tag. -/
theorem setMetadataLoop_all {Tag : Type} (ops : TagOps Tag) (l : List Tag)
    (h : ∀ t ∈ l, isCoordTag ops t = false ∧ ops.TagId t ≠ Tag_End) :
    setMetadataLoop ops l = l.map ops.Copy := by
  induction l with
  | nil => rfl
  | cons d rest ih =>
    have hd := h d (List.mem_cons_self _ _)
    have hc : ¬ ((ops.Name d == "x" || ops.Name d == "y" || ops.Name d == "z") = true) := by
      have := hd.1
      unfold isCoordTag at this
      rw [this]
      simp
    have he : ¬ ((ops.TagId d == Tag_End) = true) := by simpa using hd.2
    unfold setMetadataLoop
    rw [if_neg hc, if_neg he, ih (fun t ht => h t (List.mem_cons_of_mem _ ht))]
    rfl

theorem isCoordTag_congr {Tag : Type} (ops : TagOps Tag) (t u : Tag)
    (h : ops.Name t = ops.Name u) : isCoordTag ops t = isCoordTag ops u := by
  unfold isCoordTag
  rw [h]

theorem metadata_eq_none_iff {Tag : Type} (ops : TagOps Tag) (b : Block Tag) (data : List Tag) :
    (b.SetMetadata ops data).metadata = none ↔ setMetadataLoop ops data = [] := by
  unfold Block.SetMetadata
  cases setMetadataLoop ops data <;> simp

/-- C17: `SetMetadata` is idempotent on its own output. Given that copying a
tag preserves its name, its type and its value (any observation `value` of a
tag), after `SetMetadata(data)` the call `SetMetadata(GetMetadata())` leaves
the stored metadata a list of the same length holding, position by position,
tags of the same names, types and values; it is absent exactly when it was
absent before, and it is the very same list when a copy is equal to the tag
copied. -/
theorem SetMetadata_idempotent {Tag V : Type} (ops : TagOps Tag) (value : Tag → V)
    (b : Block Tag) (data : List Tag)
    (hname : ∀ t, ops.Name (ops.Copy t) = ops.Name t)
    (htype : ∀ t, ops.TagId (ops.Copy t) = ops.TagId t)
    (hvalue : ∀ t, value (ops.Copy t) = value t) :
    sliceLen ((b.SetMetadata ops data).resetMetadata ops).metadata
        = sliceLen (b.SetMetadata ops data).metadata
      ∧ (sliceElems ((b.SetMetadata ops data).resetMetadata ops).metadata).map ops.Name
        = (sliceElems (b.SetMetadata ops data).metadata).map ops.Name
      ∧ (sliceElems ((b.SetMetadata ops data).resetMetadata ops).metadata).map ops.TagId
        = (sliceElems (b.SetMetadata ops data).metadata).map ops.TagId
      ∧ (sliceElems ((b.SetMetadata ops data).resetMetadata ops).metadata).map value
        = (sliceElems (b.SetMetadata ops data).metadata).map value
      ∧ (((b.SetMetadata ops data).resetMetadata ops).metadata = none
          ↔ (b.SetMetadata ops data).metadata = none)
      ∧ ((∀ t, ops.Copy t = t) →
          ((b.SetMetadata ops data).resetMetadata ops).metadata
            = (b.SetMetadata ops data).metadata) := by
  have hkeep : ∀ t ∈ (setMetadataLoop ops data).map ops.Copy,
      isCoordTag ops t = false ∧ ops.TagId t ≠ Tag_End := by
    intro t ht
    obtain ⟨t1, ht1, rfl⟩ := List.mem_map.mp ht
    obtain ⟨u, rfl, hu1, hu2⟩ := setMetadataLoop_mem ops data t1 ht1
    refine ⟨?_, ?_⟩
    · rw [isCoordTag_congr ops _ u ((hname _).trans (hname _))]
      exact hu1
    · rw [htype, htype]
      exact hu2
  have hloop : setMetadataLoop ops (sliceElems ((b.SetMetadata ops data).GetMetadata ops))
      = ((setMetadataLoop ops data).map ops.Copy).map ops.Copy := by
    rw [GetMetadata_elems, SetMetadata_elems]
    exact setMetadataLoop_all ops _ hkeep
  have helems : sliceElems ((b.SetMetadata ops data).resetMetadata ops).metadata
      = ((sliceElems (b.SetMetadata ops data).metadata).map ops.Copy).map ops.Copy := by
    unfold Block.resetMetadata
    rw [SetMetadata_elems, hloop, SetMetadata_elems]
  have hnone : ((b.SetMetadata ops data).resetMetadata ops).metadata = none
      ↔ (b.SetMetadata ops data).metadata = none := by
    unfold Block.resetMetadata
    rw [metadata_eq_none_iff, hloop, metadata_eq_none_iff]
    simp
  refine ⟨?_, ?_, ?_, ?_, hnone, ?_⟩
  · rw [sliceLen_eq_length, sliceLen_eq_length, helems, List.length_map, List.length_map]
  · rw [helems, List.map_map, List.map_map]
    exact List.map_congr_left (fun t _ => (hname _).trans (hname _))
  · rw [helems, List.map_map, List.map_map]
    exact List.map_congr_left (fun t _ => (htype _).trans (htype _))
  · rw [helems, List.map_map, List.map_map]
    exact List.map_congr_left (fun t _ => (hvalue _).trans (hvalue _))
  · intro hid
    have hmapid : ∀ l : List Tag, (l.map ops.Copy).map ops.Copy = l := by
      intro l
      rw [List.map_map]
      conv_rhs => rw [← List.map_id l]
      exact List.map_congr_left (fun t _ => by simp [hid])
    rw [hmapid] at helems
    cases h1 : (b.SetMetadata ops data).metadata with
    | none => exact hnone.mpr h1
    | some l =>
      cases h2 : ((b.SetMetadata ops data).resetMetadata ops).metadata with
      | none =>
        have := hnone.mp h2
        rw [h1] at this
        cases this
      | some l2 =>
        rw [h1, h2] at helems
        exact congrArg some helems

/-- Witness of `SetMetadata_idempotent` on the metadata filtering scenario:
the two retained tags survive `SetMetadata(GetMetadata())` unchanged. -/
theorem SetMetadata_idempotent_witness :
    (((emptyBlock SimpleTag).SetMetadata simpleOps filterInput).resetMetadata simpleOps).metadata
        = ((emptyBlock SimpleTag).SetMetadata simpleOps filterInput).metadata
      ∧ ((emptyBlock SimpleTag).SetMetadata simpleOps filterInput).metadata
        = some [⟨"id", 8, 1⟩, ⟨"Lock", 8, 2⟩] :=
  ⟨(SetMetadata_idempotent simpleOps (fun t => t.value) (emptyBlock SimpleTag) filterInput
      (fun _ => rfl) (fun _ => rfl) (fun _ => rfl)).2.2.2.2.2 (fun _ => rfl),
    by decide⟩

theorem applyMutators_frame {Tag : Type} (ops : TagOps Tag) (ms : List (Mutator Tag)) :
    ∀ b : Block Tag, (applyMutators ops b ms).BlockId = b.BlockId
      ∧ (applyMutators ops b ms).Data = b.Data := by
  induction ms with
  | nil =>
    intro b
    exact ⟨rfl, rfl⟩
  | cons m rest ih =>
    intro b
    have h := ih (m.apply ops b)
    unfold applyMutators
    rw [h.1, h.2]
    cases m with
    | setMetadata data =>
      simp only [Mutator.apply, Block.SetMetadata]
      split <;> exact ⟨rfl, rfl⟩
    | addTicks t =>
      simp only [Mutator.apply, Block.AddTicks]
      split <;> exact ⟨rfl, rfl⟩
    | setTicks t => exact ⟨rfl, rfl⟩

/-- C18: the Block mutators touch only their own field: `SetMetadata` leaves
id, data and ticks unchanged, `SetTicks` and `AddTicks` leave id, data and
metadata unchanged; hence after any sequence of these calls the id and data
are those of the start, and a Block with id in [0,4095] and data in [0,15]
still satisfies both bounds. -/
theorem mutators_frame {Tag : Type} (ops : TagOps Tag) (b : Block Tag) (data : List Tag)
    (t : List Tick) (ms : List (Mutator Tag))
    (hid : b.BlockId ≤ 4095) (hdata : b.Data ≤ 15) :
    ((b.SetMetadata ops data).BlockId = b.BlockId ∧ (b.SetMetadata ops data).Data = b.Data
        ∧ (b.SetMetadata ops data).ticks = b.ticks)
      ∧ ((b.SetTicks t).BlockId = b.BlockId ∧ (b.SetTicks t).Data = b.Data
        ∧ (b.SetTicks t).metadata = b.metadata)
      ∧ ((b.AddTicks t).BlockId = b.BlockId ∧ (b.AddTicks t).Data = b.Data
        ∧ (b.AddTicks t).metadata = b.metadata)
      ∧ ((applyMutators ops b ms).BlockId = b.BlockId ∧ (applyMutators ops b ms).Data = b.Data)
      ∧ (applyMutators ops b ms).BlockId ≤ 4095 ∧ (applyMutators ops b ms).Data ≤ 15 := by
  have hseq := applyMutators_frame ops ms b
  refine ⟨?_, ⟨rfl, rfl, rfl⟩, ?_, hseq, ?_, ?_⟩
  · unfold Block.SetMetadata
    simp only []
    split <;> exact ⟨rfl, rfl, rfl⟩
  · unfold Block.AddTicks
    split <;> exact ⟨rfl, rfl, rfl⟩
  · rw [hseq.1]
    exact hid
  · rw [hseq.2]
    exact hdata

/-- Witness of `mutators_frame`: `sampleBlock` (id 54, data 3) through the
three mutators in turn. -/
theorem mutators_frame_witness :
    (applyMutators simpleOps sampleBlock
        [.setMetadata filterInput, .addTicks [⟨7, 8, 9⟩], .setTicks []]).BlockId = 54
      ∧ (applyMutators simpleOps sampleBlock
        [.setMetadata filterInput, .addTicks [⟨7, 8, 9⟩], .setTicks []]).Data = 3 :=
  (mutators_frame simpleOps sampleBlock [] []
    [.setMetadata filterInput, .addTicks [⟨7, 8, 9⟩], .setTicks []]
    (by decide) (by decide)).2.2.2.1

/-! ## Decimal rendering -/

/-- The digit read back from its character. -/
theorem digitChar_toNat : ∀ d < 10, (Nat.digitChar d).toNat - 48 = d := by
  decide

theorem digitChar_ne_newline : ∀ d < 10, Nat.digitChar d ≠ '\n' := by
  decide

theorem map_digitChar_inj (l1 l2 : List Nat) (h1 : ∀ d ∈ l1, d < 10) (h2 : ∀ d ∈ l2, d < 10)
    (h : l1.map Nat.digitChar = l2.map Nat.digitChar) : l1 = l2 := by
  have back : ∀ l : List Nat, (∀ d ∈ l, d < 10) →
      (l.map Nat.digitChar).map (fun c => c.toNat - 48) = l := by
    intro l hl
    rw [List.map_map]
    conv_rhs => rw [← List.map_id l]
    exact List.map_congr_left (fun d hd => digitChar_toNat d (hl d hd))
  rw [← back l1 h1, ← back l2 h2, h]

theorem digits_lt_ten (n d : Nat) (h : d ∈ Nat.digits 10 n) : d < 10 :=
  Nat.digits_lt_base (by decide) h

theorem decimalDigits_inj (n m : Nat) (h : decimalDigits n = decimalDigits m) : n = m := by
  have zero_case : ∀ k : Nat, k ≠ 0 →
      ['0'] ≠ ((Nat.digits 10 k).reverse).map Nat.digitChar := by
    intro k hk heq
    have h0 : ([0] : List Nat).map Nat.digitChar = ((Nat.digits 10 k).reverse).map Nat.digitChar :=
      heq
    have hrev := map_digitChar_inj [0] (Nat.digits 10 k).reverse
      (by intro d hd; simp at hd; omega)
      (by intro d hd; exact digits_lt_ten k d (List.mem_reverse.mp hd)) h0
    have hdig : Nat.digits 10 k = [0] := by
      have := congrArg List.reverse hrev
      simpa using this.symm
    have hlast := Nat.getLast_digit_ne_zero 10 hk
    simp [hdig] at hlast
  unfold decimalDigits at h
  by_cases hn : n = 0 <;> by_cases hm : m = 0
  · rw [hn, hm]
  · rw [if_pos hn, if_neg hm] at h
    exact absurd h (zero_case m hm)
  · rw [if_neg hn, if_pos hm] at h
    exact absurd h.symm (zero_case n hn)
  · rw [if_neg hn, if_neg hm] at h
    have hrev := map_digitChar_inj _ _
      (by intro d hd; exact digits_lt_ten n d (List.mem_reverse.mp hd))
      (by intro d hd; exact digits_lt_ten m d (List.mem_reverse.mp hd)) h
    exact Nat.digits_inj_iff.mp (List.reverse_injective hrev)

theorem decimalDigits_no_newline (n : Nat) : '\n' ∉ decimalDigits n := by
  unfold decimalDigits
  by_cases hn : n = 0
  · rw [if_pos hn]
    decide
  · rw [if_neg hn]
    intro hmem
    obtain ⟨d, hd, hc⟩ := List.mem_map.mp hmem
    exact digitChar_ne_newline d (digits_lt_ten n d (List.mem_reverse.mp hd)) hc

theorem toDigitsCore_eq (fuel : Nat) :
    ∀ (n : Nat) (ds : List Char), n < fuel →
      Nat.toDigitsCore 10 fuel n ds = decimalDigits n ++ ds := by
  induction fuel with
  | zero =>
    intro n ds h
    omega
  | succ f ih =>
    intro n ds h
    unfold Nat.toDigitsCore
    simp only []
    by_cases h0 : n / 10 = 0
    · rw [if_pos h0]
      have hlt : n < 10 := by omega
      unfold decimalDigits
      by_cases hn : n = 0
      · rw [if_pos hn, hn]
        rfl
      · rw [if_neg hn, Nat.digits_of_lt 10 n hn hlt, Nat.mod_eq_of_lt hlt]
        rfl
    · rw [if_neg h0, ih (n / 10) _ (by omega)]
      have hn : n ≠ 0 := by omega
      have hd : Nat.digits 10 n = (n % 10) :: Nat.digits 10 (n / 10) :=
        Nat.digits_def' (by decide) (by omega)
      unfold decimalDigits
      rw [if_neg h0, if_neg hn, hd]
      simp

theorem sprintfNat_eq (n : Nat) : sprintfNat n = String.mk (decimalDigits n) := by
  unfold sprintfNat Nat.repr Nat.toDigits
  rw [toDigitsCore_eq (n + 1) n [] (by omega)]
  simp [List.asString]

theorem split_at_char (c : Char) :
    ∀ (l1 l2 r1 r2 : List Char), c ∉ l1 → c ∉ l2 → l1 ++ c :: r1 = l2 ++ c :: r2 →
      l1 = l2 ∧ r1 = r2 := by
  intro l1
  induction l1 with
  | nil =>
    intro l2 r1 r2 _ h2 h
    cases l2 with
    | nil =>
      simp only [List.nil_append, List.cons.injEq, true_and] at h
      exact ⟨rfl, h⟩
    | cons a l2 =>
      simp only [List.nil_append, List.cons_append, List.cons.injEq] at h
      exact absurd (List.mem_cons.mpr (Or.inl h.1)) h2
  | cons a l1 ih =>
    intro l2 r1 r2 h1 h2 h
    cases l2 with
    | nil =>
      simp only [List.nil_append, List.cons_append, List.cons.injEq] at h
      exact absurd (List.mem_cons.mpr (Or.inl h.1.symm)) h1
    | cons a2 l2 =>
      simp only [List.cons_append, List.cons.injEq] at h
      obtain ⟨e1, e2⟩ := ih l2 r1 r2 (fun hm => h1 (List.mem_cons_of_mem _ hm))
        (fun hm => h2 (List.mem_cons_of_mem _ hm)) h.2
      exact ⟨by rw [h.1, e1], e2⟩

theorem stringHeader_data (id data : Nat) :
    (stringHeader id data).data
      = "Block ID: ".data ++ (decimalDigits id ++ '\n' :: ("Data: ".data
          ++ (decimalDigits data ++ ['\n']))) := by
  unfold stringHeader
  rw [sprintfNat_eq, sprintfNat_eq]
  simp only [String.data_append, List.append_assoc]
  rfl

theorem stringHeader_inj (id data id2 data2 : Nat)
    (h : stringHeader id data = stringHeader id2 data2) : id = id2 ∧ data = data2 := by
  have hd := congrArg String.data h
  rw [stringHeader_data, stringHeader_data] at hd
  have h1 := List.append_cancel_left hd
  obtain ⟨e1, e2⟩ := split_at_char '\n' _ _ _ _ (decimalDigits_no_newline id)
    (decimalDigits_no_newline id2) h1
  have h2 := List.append_cancel_left e2
  have h3 := List.append_cancel_right h2
  exact ⟨decimalDigits_inj _ _ e1, decimalDigits_inj _ _ h3⟩

theorem stringTicksLoop_eq (ticks : List Tick) :
    ∀ (toRet : String) (n : Nat),
      stringTicksLoop toRet n ticks = toRet ++ tickLinesFrom (n + 1) ticks := by
  induction ticks with
  | nil =>
    intro toRet n
    simp [stringTicksLoop, tickLinesFrom]
  | cons tick rest ih =>
    intro toRet n
    unfold stringTicksLoop tickLinesFrom
    rw [ih, String.append_assoc]

theorem StringOf_eq {Tag : Type} (tagString : Tag → String) (b : Block Tag)
    (hb : sliceLen b.metadata = 0) :
    b.StringOf tagString
      = stringHeader b.BlockId b.Data ++ tickLinesFrom 1 (sliceElems b.ticks) := by
  unfold Block.StringOf
  simp only [hb, bne_self_eq_false, Bool.and_false, Bool.false_eq_true, if_false]
  exact stringTicksLoop_eq _ _ 0

theorem sprintfInt_eq (v : Int) : sprintfInt v = signedDecimalString v := by
  unfold sprintfInt signedDecimalString decimalString
  cases v with
  | ofNat m =>
    have hneg : ¬ (Int.ofNat m < 0) := by
      have : (0 : Int) ≤ Int.ofNat m := Int.ofNat_nonneg m
      omega
    rw [if_neg hneg]
    exact sprintfNat_eq m
  | negSucc m =>
    rw [if_pos (Int.negSucc_lt_zero m)]
    show "-" ++ sprintfNat (m + 1) = _
    rw [sprintfNat_eq]
    rfl

theorem tickLinesFrom_eq (ticks : List Tick) :
    ∀ first : Nat, tickLinesFrom first ticks = specTickLines first ticks := by
  induction ticks with
  | nil =>
    intro first
    rfl
  | cons k rest ih =>
    intro first
    unfold tickLinesFrom specTickLines tickLine
    rw [ih, sprintfNat_eq, sprintfInt_eq, sprintfInt_eq, sprintfInt_eq]
    rfl

/-- C19: for every Block with no metadata and with ticks k1..kn, `String`
returns exactly "Block ID: id\nData: data\n" (id and data in decimal)
followed, for each tick in order, by a line "\tTick: j, i: I, t: T, p: P\n"
with j counting from 1; for a Block with no ticks the result is just the two
header lines, and two Blocks with neither metadata nor ticks render to the
same string exactly when they have the same id and the same data. -/
theorem StringOf_no_metadata {Tag : Type} (tagString : Tag → String) (b c : Block Tag)
    (hb : sliceLen b.metadata = 0) (hc : sliceLen c.metadata = 0) :
    b.StringOf tagString
        = ("Block ID: " ++ decimalString b.BlockId ++ "\nData: " ++ decimalString b.Data ++ "\n")
          ++ specTickLines 1 (sliceElems b.ticks)
      ∧ (sliceLen b.ticks = 0 →
          b.StringOf tagString
            = "Block ID: " ++ decimalString b.BlockId ++ "\nData: " ++ decimalString b.Data
              ++ "\n")
      ∧ (sliceLen b.ticks = 0 → sliceLen c.ticks = 0 →
          (b.StringOf tagString = c.StringOf tagString
            ↔ b.BlockId = c.BlockId ∧ b.Data = c.Data)) := by
  have hhead : ∀ id data : Nat, stringHeader id data
      = "Block ID: " ++ decimalString id ++ "\nData: " ++ decimalString data ++ "\n" := by
    intro id data
    unfold stringHeader decimalString
    rw [sprintfNat_eq, sprintfNat_eq]
  have hnoticks : ∀ d : Block Tag, sliceLen d.metadata = 0 → sliceLen d.ticks = 0 →
      d.StringOf tagString = stringHeader d.BlockId d.Data := by
    intro d hd ht
    rw [StringOf_eq tagString d hd, sliceElems_of_len_zero _ ht]
    simp [tickLinesFrom]
  refine ⟨?_, ?_, ?_⟩
  · rw [StringOf_eq tagString b hb, tickLinesFrom_eq, hhead]
  · intro ht
    rw [hnoticks b hb ht, hhead]
  · intro ht ht2
    rw [hnoticks b hb ht, hnoticks c hc ht2]
    constructor
    · exact stringHeader_inj _ _ _ _
    · rintro ⟨e1, e2⟩
      rw [e1, e2]

/-- Witness of `StringOf_no_metadata`: the rendering of `tickedBlock`, and the
air block against a block of id 1. -/
theorem StringOf_no_metadata_witness :
    (tickedBlock.StringOf (fun t => t.name)
        = ("Block ID: " ++ decimalString 54 ++ "\nData: " ++ decimalString 3 ++ "\n")
          ++ specTickLines 1 [⟨1, 2, 3⟩, ⟨-4, 5, 6⟩])
      ∧ tickedBlock.StringOf (fun t => t.name)
        = "Block ID: 54\nData: 3\n\tTick: 1, i: 1, t: 2, p: 3\n\tTick: 2, i: -4, t: 5, p: 6\n" :=
  ⟨(StringOf_no_metadata (fun t : SimpleTag => t.name) tickedBlock (emptyBlock SimpleTag)
      rfl rfl).1,
    by decide⟩

end Minecraft
